import Mathlib

/-!
Room hub of the signaling relay: embedding of `internal/room`, and of the service and
token providers in front of it (`internal/service`, `internal/auth`, `internal/domain`).

The Go packages are embedded as pure functions.

* A Go `map[string]*user` is an association list `List (String × user)`; a Go map has
  one entry per key, which is the predicate `userMap.uniqueKeys`.  `range` over a map is
  modelled as iteration in list order.  Go leaves that order unspecified, so every
  statement below is phrased without reference to it (per-recipient projections of the
  trace, lists up to permutation).
* Side effects (`conn.WriteMessage` through `user.send`, `conn.Close`) are recorded in a
  trace of `Effect`s returned next to the new state.  `user.send` logs and otherwise
  ignores a marshal or write error, and `handleEvent` ignores the error of `Close`, so no
  error value flows back into the room.
* A Go runtime panic is the `Except.error` result.
* `encoding/json` is an external library: the three decoders the package calls are the
  fields of `Codec`, a parameter of the functions that decode.
* The registry `map[string]*room` of the hub is an association list as well; a room is
  held by value, its `done` channel being the flag `room.done`.
* The collaborators of the service (database, token providers, OAuth provider) are Go
  interfaces: records of functions, with a log of the calls made to them.
* `github.com/golang-jwt/jwt/v4` is an external library: the parameter `JWT`, with the
  contracts `JWT.Lawful` and `JWT.Sound`.  Instants and durations are in nanoseconds;
  `jwt.NewNumericDate` truncates to the second.
-/

set_option autoImplicit false

namespace Vego

/-! ## types.go -/

/-- Go `type eventType string`. -/
abbrev eventType := String

def eventJoin : eventType := "join"
def eventLeave : eventType := "leave"
def eventInfo : eventType := "info"
def eventChatMessage : eventType := "chat-message"
def eventOffer : eventType := "offer"
def eventAnswer : eventType := "answer"
def eventIceCandidate : eventType := "ice-candidate"

/-- Handle of a websocket connection (`*websocket.Conn`). -/
abbrev Conn := Nat

/-- Go `time.Time`: an instant, in nanoseconds since the Unix epoch. -/
abbrev Time := Int

/-- Go `[]byte` holding one text frame. -/
abbrev Frame := String

/-- Go `type user struct` of user.go. -/
structure user where
  innerID : String
  userID : Int
  name : String
  avatar : String
  conn : Conn
  deriving DecidableEq, Repr

structure joinMessage where
  Name : String
  Avatar : String
  deriving DecidableEq, Repr

structure infoUser where
  InnerID : String
  Name : String
  Avatar : String
  deriving DecidableEq, Repr

structure infoMessage where
  Users : List infoUser
  deriving DecidableEq, Repr

structure chatMessage where
  Content : String
  Ts : Time
  deriving DecidableEq, Repr

structure webRTCMessage where
  To : String
  Content : String
  deriving DecidableEq, Repr

/-- The dynamic values stored in the `Data any` field of an envelope: `nil`, the `*user`
the server puts in a join event, a decoded JSON string, any other decoded JSON value
(bool, float64, []any, map[string]any; kept as its JSON text), and the three outbound
payload structs. -/
inductive Any where
  | nil
  | user (u : user)
  | str (s : String)
  | other (raw : String)
  | join (m : joinMessage)
  | info (m : infoMessage)
  | chat (m : chatMessage)
  deriving DecidableEq, Repr

/-- Go `baseMessage`, the envelope (`Typ` is the field `Type`). -/
structure baseMessage where
  Typ : eventType
  From : String
  Data : Any
  deriving DecidableEq, Repr

/-- The decoders of `encoding/json` as the package uses them: `json.Unmarshal` into a
`baseMessage` (room.listen), into a `chatMessage` and into a `webRTCMessage`
(unmarshalClientData); `none` is a decode error. -/
structure Codec where
  unmarshalBase : Frame → Option baseMessage
  unmarshalChat : String → Option chatMessage
  unmarshalWebRTC : String → Option webRTCMessage

/-! ## Go maps -/

/-- Go `map[string]*user`. -/
abbrev userMap := List (String × user)

namespace userMap

/-- Go `m[k]` in the two-value form; `none` is the miss (the nil pointer in the
one-value form). -/
def get : userMap → String → Option user
  | [], _ => none
  | (k', v) :: rest, k => if k' = k then some v else get rest k

/-- Go `m[k] = v`. -/
def set : userMap → String → user → userMap
  | [], k, v => [(k, v)]
  | (k', v') :: rest, k, v => if k' = k then (k, v) :: rest else (k', v') :: set rest k v

/-- Go `delete(m, k)`. -/
def delete : userMap → String → userMap
  | [], _ => []
  | (k', v') :: rest, k => if k' = k then delete rest k else (k', v') :: delete rest k

/-- The values visited by `for _, u := range m`. -/
def range (m : userMap) : List user := m.map Prod.snd

/-- The keys of the map. -/
def keys (m : userMap) : List String := m.map Prod.fst

/-- A Go map holds at most one entry per key. -/
def uniqueKeys (m : userMap) : Prop := (keys m).Nodup

/-- Every session is stored under its own session id, as `handleEvent` stores it
(`r.users[u.innerID] = u`). -/
def keyedByInnerID (m : userMap) : Prop := ∀ e ∈ m, e.1 = e.2.innerID

end userMap

/-! ## Effects and panics -/

deriving instance DecidableEq for Except

/-- What a call leaves on the outside world. -/
inductive Effect where
  /-- The call `u.send(&msg)`: one text frame carrying `msg` written to `u.conn`. -/
  | send (u : user) (msg : baseMessage)
  /-- The call `conn.Close()`. -/
  | close (conn : Conn)
  deriving DecidableEq, Repr

/-- Go runtime panics the package can raise. -/
inductive Panic where
  /-- Field access through a nil `*user`. -/
  | nilDereference
  /-- The one-value type assertion `event.Data.(*user)` on another dynamic type. -/
  | typeAssertion
  /-- `make([]infoUser, 0, n)` with negative `n`. -/
  | makeSliceCap
  /-- `close` of a channel that is already closed. -/
  | closeOfClosedChannel
  deriving DecidableEq, Repr

/-! ## room.go -/

/-- Go `type room struct`: the membership map; `done` is true once the `done` channel is
closed.  The mailbox `events` is modelled by the lists of events the producers emit. -/
structure room where
  users : userMap
  done : Bool
  deriving DecidableEq, Repr

def newRoom : room := { users := [], done := false }

/-- Go `room.stop`: `close(r.done)`, which panics on a channel that is already closed. -/
def room.stop (r : room) : Except Panic room :=
  if r.done then .error .closeOfClosedChannel else .ok { r with done := true }

/-- Go `unmarshalClientData[T]`: the data must be a string and decode as a `T`. -/
def unmarshalClientData {T : Type} (unmarshal : String → Option T) (input : Any) : Option T :=
  match input with
  | .str data => unmarshal data
  | _ => none

/-- Go `createInfoUsers`. -/
def createInfoUsers (users : userMap) (exclude : String) : Except Panic (List infoUser) :=
  if users.length = 0 then
    .error .makeSliceCap
  else
    .ok ((users.range.filter (fun u => u.innerID ≠ exclude)).map
      (fun u => { InnerID := u.innerID, Name := u.name, Avatar := u.avatar }))

/-- The body of the loop of `sendUserJoined` for one member `u`. -/
def sendUserJoinedTo (r : room) (innerID name avatar : String) (u : user) :
    Except Panic Effect :=
  if u.innerID = innerID then
    match createInfoUsers r.users innerID with
    | .error p => .error p
    | .ok infoUsers =>
      .ok (.send u { Typ := eventInfo, From := innerID, Data := .info { Users := infoUsers } })
  else
    .ok (.send u { Typ := eventJoin, From := innerID,
                   Data := .join { Name := name, Avatar := avatar } })

/-- The loop of `sendUserJoined` over the members still to visit. -/
def sendUserJoinedLoop (r : room) (innerID name avatar : String) :
    List user → Except Panic (List Effect)
  | [] => .ok []
  | u :: rest =>
    match sendUserJoinedTo r innerID name avatar u with
    | .error p => .error p
    | .ok sent =>
      match sendUserJoinedLoop r innerID name avatar rest with
      | .error p => .error p
      | .ok more => .ok (sent :: more)

/-- Go `room.sendUserJoined`. -/
def sendUserJoined (r : room) (innerID name avatar : String) : Except Panic (List Effect) :=
  sendUserJoinedLoop r innerID name avatar r.users.range

/-- Go `room.sendUserLeft`. -/
def sendUserLeft (r : room) (innerID : String) : List Effect :=
  r.users.range.map (fun u => .send u { Typ := eventLeave, From := innerID, Data := .nil })

/-- Go `room.sendChatMessage`. -/
def sendChatMessage (r : room) (innerID : String) (chatMsg : chatMessage) : List Effect :=
  r.users.range.map
    (fun u => .send u { Typ := eventChatMessage, From := innerID, Data := .chat chatMsg })

/-- Go `room.forwardMessage`. -/
def forwardMessage (r : room) (msg : baseMessage) (to_ : String) : List Effect :=
  match r.users.get to_ with
  | some targetUser => [.send targetUser msg]
  | none => []

/-- Go `room.handleEvent`: the new room state and the trace of effects, or the panic. -/
def handleEvent (c : Codec) (r : room) (event : baseMessage) :
    Except Panic (room × List Effect) :=
  if event.Typ = eventJoin then
    match event.Data with
    | .user u =>
      let r1 : room := { r with users := r.users.set u.innerID u }
      match sendUserJoined r1 event.From u.name u.avatar with
      | .error p => .error p
      | .ok sent => .ok (r1, sent)
    | _ => .error .typeAssertion
  else if event.Typ = eventLeave then
    match r.users.get event.From with
    | none => .error .nilDereference
    | some u =>
      let r1 : room := { r with users := r.users.delete event.From }
      .ok (r1, .close u.conn :: sendUserLeft r1 event.From)
  else if event.Typ = eventChatMessage then
    match unmarshalClientData c.unmarshalChat event.Data with
    | some msg => .ok (r, sendChatMessage r event.From msg)
    | none => .ok (r, [])
  else if event.Typ = eventOffer ∨ event.Typ = eventAnswer ∨ event.Typ = eventIceCandidate then
    match unmarshalClientData c.unmarshalWebRTC event.Data with
    | some msg => .ok (r, forwardMessage r event msg.To)
    | none => .ok (r, [])
  else
    .ok (r, [])

/-- Go `room.run` over the events `events` received from the mailbox in that order (the
`done` channel not firing in between): the final state and the whole trace, or the panic
that ends the goroutine. -/
def run (c : Codec) : room → List baseMessage → Except Panic (room × List Effect)
  | r, [] => .ok (r, [])
  | r, event :: rest =>
    match handleEvent c r event with
    | .error p => .error p
    | .ok (r1, sent) =>
      match run c r1 rest with
      | .error p => .error p
      | .ok (r2, more) => .ok (r2, sent ++ more)

/-- The event `room.join` sends to the mailbox for the session `u`. -/
def joinEvent (u : user) : baseMessage :=
  { Typ := eventJoin, From := u.innerID, Data := .user u }

/-- The event the deferred function of `room.listen` sends to the mailbox. -/
def leaveEvent (innerID : String) : baseMessage :=
  { Typ := eventLeave, From := innerID, Data := .nil }

/-- One firing of the `select` of the loop of `room.listen`. -/
inductive Select where
  /-- `<-ticker.C`; `pingErr` tells whether writing the ping frame failed. -/
  | tick (pingErr : Bool)
  /-- `input := <-messageChan`: the reader goroutine read one frame. -/
  | message (input : Frame)
  /-- `err := <-errChan`: the reader goroutine's read failed. -/
  | err
  deriving DecidableEq, Repr

/-- The `for { select { ... } }` loop of `room.listen` run over the firings `sched`: the
envelopes it sends to `r.events`, and whether it returned (it is still waiting when
`sched` ends without a failed ping or a read error). -/
def listenLoop (c : Codec) (innerID : String) : List Select → List baseMessage × Bool
  | [] => ([], false)
  | .tick pingErr :: rest =>
    if pingErr then ([], true) else listenLoop c innerID rest
  | .message input :: rest =>
    match c.unmarshalBase input with
    | none => listenLoop c innerID rest
    | some message =>
      let out := listenLoop c innerID rest
      ({ message with From := innerID } :: out.1, out.2)
  | .err :: _ => ([], true)

/-- Go `room.listen`: the loop, then the deferred send of the leave event once the loop
returned. -/
def listen (c : Codec) (innerID : String) (sched : List Select) : List baseMessage × Bool :=
  let out := listenLoop c innerID sched
  if out.2 then
    (out.1 ++ [leaveEvent innerID], true)
  else
    (out.1, false)

/-- Go `room.join`: the events the call puts in the mailbox, and whether it returned. -/
def join (c : Codec) (u : user) (sched : List Select) : List baseMessage × Bool :=
  let out := listen c u.innerID sched
  (joinEvent u :: out.1, out.2)

/-! ## hub.go -/

/-- Go `map[string]*room`. -/
abbrev roomMap := List (String × room)

namespace roomMap

/-- Go `m[k]` in the two-value form. -/
def get : roomMap → String → Option room
  | [], _ => none
  | (k', v) :: rest, k => if k' = k then some v else get rest k

/-- Go `m[k] = v`. -/
def set : roomMap → String → room → roomMap
  | [], k, v => [(k, v)]
  | (k', v') :: rest, k, v => if k' = k then (k, v) :: rest else (k', v') :: set rest k v

/-- Go `delete(m, k)`. -/
def delete : roomMap → String → roomMap
  | [], _ => []
  | (k', v') :: rest, k => if k' = k then delete rest k else (k', v') :: delete rest k

/-- The keys of the map. -/
def keys (m : roomMap) : List String := m.map Prod.fst

/-- A Go map holds at most one entry per key. -/
def uniqueKeys (m : roomMap) : Prop := (keys m).Nodup

end roomMap

/-- Go `type Hub struct`: the registry of rooms.  The mutex serialises the accesses to
`rooms`; the calls are modelled one at a time. -/
structure Hub where
  rooms : roomMap
  deriving DecidableEq, Repr

/-- Go `NewHub` (the cleanup goroutine it starts is `Hub.cleanup`). -/
def NewHub : Hub := { rooms := [] }

/-- Go `Hub.getOrCreateRoom`: the registry afterwards, the room returned, and whether the
actor goroutine `go r.run()` was started. -/
def Hub.getOrCreateRoom (h : Hub) (roomID : String) : Hub × room × Bool :=
  match h.rooms.get roomID with
  | some r => (h, r, false)
  | none =>
    let r := newRoom
    ({ h with rooms := h.rooms.set roomID r }, r, true)

/-- The loop `for roomID, r := range rs` of `Hub.cleanup` over the rest of the snapshot:
the registry afterwards and the rooms stopped, in order. -/
def Hub.cleanupLoop : Hub → List (String × room) → Except Panic (Hub × List (String × room))
  | h, [] => .ok (h, [])
  | h, (roomID, r) :: rest =>
    if r.users.length = 0 then
      match r.stop with
      | .error p => .error p
      | .ok stopped =>
        match Hub.cleanupLoop { h with rooms := h.rooms.delete roomID } rest with
        | .error p => .error p
        | .ok (h1, more) => .ok (h1, (roomID, stopped) :: more)
    else
      Hub.cleanupLoop h rest

/-- Go `Hub.cleanup`, one firing of its ticker: the sweep over the snapshot
`maps.Clone(h.rooms)`. -/
def Hub.cleanup (h : Hub) : Except Panic (Hub × List (String × room)) :=
  h.cleanupLoop h.rooms

/-- Registries of a running hub: one entry per room id (as every Go map has) and no
registered room stopped (a room is stopped only by the sweep that removes it). -/
def Hub.wf (h : Hub) : Prop := h.rooms.uniqueKeys ∧ ∀ e ∈ h.rooms, e.2.done = false

/-! ## Vocabulary of the statements -/

/-- Whether a firing of the `select` is the ping ticker. -/
def Select.isTick : Select → Bool
  | .tick _ => true
  | _ => false

/-- The envelope `room.listen` sends to the mailbox for a frame: the decoded envelope with
`From` overwritten by the session id, or nothing when the frame does not decode. -/
def envelopeOf (c : Codec) (innerID : String) (input : Frame) : Option baseMessage :=
  (c.unmarshalBase input).map (fun message => { message with From := innerID })


/-- Room states are those in which the membership map has one entry per key (as every Go
map has) and stores each session under its own session id (as `handleEvent` stores
it). -/
def room.wf (r : room) : Prop := r.users.uniqueKeys ∧ r.users.keyedByInnerID

/-- Whether an effect is a message sent to the session with id `id`. -/
def Effect.isSendTo (id : String) : Effect → Bool
  | .send u _ => decide (u.innerID = id)
  | .close _ => false

/-- The messages of a trace sent to the session with id `id`, in the order sent. -/
def deliveries (id : String) (t : List Effect) : List Effect :=
  t.filter (Effect.isSendTo id)

/-- The transports closed in a trace, in order. -/
def closes : List Effect → List Conn
  | [] => []
  | .close conn :: rest => conn :: closes rest
  | .send _ _ :: rest => closes rest

/-- The roster entry of a session in an info message. -/
def infoUserOf (u : user) : infoUser :=
  { InnerID := u.innerID, Name := u.name, Avatar := u.avatar }

/-- A sample codec given by small tables: four frames decode as envelopes (the second
with a forged sender), a chat payload is its own content stamped 0 unless empty, and a
signalling payload is its own target unless empty. -/
def sampleCodec : Codec where
  unmarshalBase := fun input =>
    if input = "chat hi" then some { Typ := eventChatMessage, From := "", Data := .str "hi" }
    else if input = "chat hi as a" then
      some { Typ := eventChatMessage, From := "a", Data := .str "hi" }
    else if input = "offer b" then some { Typ := eventOffer, From := "", Data := .str "b" }
    else if input = "leave" then some { Typ := eventLeave, From := "", Data := .nil }
    else none
  unmarshalChat := fun s => if s = "" then none else some { Content := s, Ts := 0 }
  unmarshalWebRTC := fun s => if s = "" then none else some { To := s, Content := "sdp" }

def alice : user := { innerID := "a", userID := 1, name := "Alice", avatar := "a.png", conn := 10 }
def bob : user := { innerID := "b", userID := 2, name := "Bob", avatar := "b.png", conn := 11 }

def carol : user := { innerID := "c", userID := 1, name := "Carol", avatar := "c.png", conn := 12 }

/-- A room whose members are alice and bob. -/
def roomAB : room := { users := [("a", alice), ("b", bob)], done := false }

/-- The session `u` with its account id replaced through `g`. -/
def user.withAccount (g : Int → Int) (u : user) : user := { u with userID := g u.userID }

/-- The payload `d` with the account id of a carried session replaced through `g`. -/
def Any.withAccount (g : Int → Int) : Any → Any
  | .user u => .user (u.withAccount g)
  | d => d

/-- The envelope `m` with the account id of a carried session replaced through `g`. -/
def baseMessage.withAccount (g : Int → Int) (m : baseMessage) : baseMessage :=
  { m with Data := m.Data.withAccount g }

/-- The room `r` with the account id of every member replaced through `g`. -/
def room.withAccount (g : Int → Int) (r : room) : room :=
  { r with users := r.users.map (fun e => (e.1, e.2.withAccount g)) }

/-- The effect `e` with the account id of the recipient replaced through `g`; the
message sent is kept as it is. -/
def Effect.withAccount (g : Int → Int) : Effect → Effect
  | .send u m => .send (u.withAccount g) m
  | .close conn => .close conn

/-- The outcome of `handleEvent` with the account ids of the members and of the
recipients replaced through `g`. -/
def outcomeWithAccount (g : Int → Int) :
    Except Panic (room × List Effect) → Except Panic (room × List Effect)
  | .ok (r, t) => .ok (r.withAccount g, t.map (Effect.withAccount g))
  | .error p => .error p

/-- A room whose only member is bob. -/
def roomB : room := { users := [("b", bob)], done := false }

/-- A registry with the occupied room "r1" and the empty room "r2". -/
def sampleHub : Hub := { rooms := [("r1", roomAB), ("r2", newRoom)] }

/-- The message `sendUserJoined` sends to the member `u`: the roster to the joiner, the
announcement to everybody else. -/
def joinedMessage (r : room) (innerID name avatar : String) (u : user) : baseMessage :=
  if u.innerID = innerID then
    { Typ := eventInfo, From := innerID,
      Data := .info
        { Users := List.map infoUserOf (r.users.range.filter (fun v => v.innerID ≠ innerID)) } }
  else
    { Typ := eventJoin, From := innerID, Data := .join { Name := name, Avatar := avatar } }

/-! ## domain: errors and records -/

/-- Go `error` values: the sentinels of domain/error.go, any other error, and an error
wrapping another one (`%w`). -/
inductive Error where
  | ErrTokenInvalid
  | ErrTokenExpired
  | ErrOAuthUnsupportedProvider
  | ErrOAuthExchange
  | ErrOAuthGetUserInfo
  | ErrDBUserNotFound
  | ErrDBQuery
  | ErrRoomIDTokenMismatch
  | other (msg : String)
  | wrap (msg : String) (err : Error)
  deriving DecidableEq, Repr

/-- Go `errors.Is(err, target)`: `err` or an error it wraps is `target`. -/
def Error.is : Error → Error → Bool
  | .wrap msg err, target => decide (Error.wrap msg err = target) || err.is target
  | err, target => decide (err = target)

/-- Go `domain.User`. -/
structure User where
  UserID : Int
  Name : String
  Email : String
  Avatar : String
  deriving DecidableEq, Repr

/-- Go `domain.UserTokenPayload`. -/
structure UserTokenPayload where
  UserID : Int
  Email : String
  deriving DecidableEq, Repr

/-- Go `domain.RoomTokenPayload`. -/
structure RoomTokenPayload where
  UserID : Int
  RoomID : String
  deriving DecidableEq, Repr

/-- Go `domain.Token`. -/
structure Token where
  Access : String
  Refresh : String
  deriving DecidableEq, Repr

/-! ## service.go

A Go result `(T, error)` is an `Except`: the callers below look at the value only when
the error is nil.  The collaborators of the service are interfaces; each is the record of
its methods, and every function returns, next to its result, the calls it made to them in
order. -/

/-- Go interface `database`. -/
structure database where
  GetUser : Int → Except Error User
  CreateUser : User → String → Except Error Int

/-- Go interface `userTokenProvider`. -/
structure userTokenProvider where
  CreateToken : Int → String → Except Error Token
  VerifyToken : String → Except Error UserTokenPayload

/-- Go interface `roomTokenProvider`. -/
structure roomTokenProvider where
  CreateToken : Int → String → Except Error String
  VerifyToken : String → Except Error RoomTokenPayload

/-- Go interface `oauthProvider`. -/
structure oauthProvider where
  GetRedirectURL : String → Except Error String
  HandleCallback : String → String → Except Error User

/-- Go `type Service struct` (the `hub` field serves `HandleWS` only). -/
structure Service where
  db : database
  oauthProvider : Vego.oauthProvider
  userTokenProvider : Vego.userTokenProvider
  roomTokenProvider : Vego.roomTokenProvider

/-- A call of the service to one of its collaborators. -/
inductive Call where
  | HandleCallback (provider code : String)
  | CreateUser (user : User) (provider : String)
  | GetUser (userID : Int)
  | UserCreateToken (userID : Int) (email : String)
  | UserVerifyToken (token : String)
  | RoomVerifyToken (token : String)
  deriving DecidableEq, Repr

/-- Go `Service.RegisterUser`. -/
def Service.RegisterUser (s : Service) (provider code : String) :
    Except Error Token × List Call :=
  match s.oauthProvider.HandleCallback provider code with
  | .error err => (.error err, [.HandleCallback provider code])
  | .ok user =>
    match s.db.CreateUser user provider with
    | .error err => (.error err, [.HandleCallback provider code, .CreateUser user provider])
    | .ok userID =>
      match s.userTokenProvider.CreateToken userID user.Email with
      | .error err =>
        (.error err, [.HandleCallback provider code, .CreateUser user provider,
          .UserCreateToken userID user.Email])
      | .ok token =>
        (.ok token, [.HandleCallback provider code, .CreateUser user provider,
          .UserCreateToken userID user.Email])

/-- Go `Service.verifyUserToken`: the user id and the refreshed token pair, if any. -/
def Service.verifyUserToken (s : Service) (token : Token) :
    Except Error (Int × Option Token) × List Call :=
  match s.userTokenProvider.VerifyToken token.Access with
  | .ok payload => (.ok (payload.UserID, none), [.UserVerifyToken token.Access])
  | .error err =>
    if !err.is .ErrTokenExpired then
      (.error err, [.UserVerifyToken token.Access])
    else
      match s.userTokenProvider.VerifyToken token.Refresh with
      | .error err1 =>
        (.error err1, [.UserVerifyToken token.Access, .UserVerifyToken token.Refresh])
      | .ok payload =>
        match s.userTokenProvider.CreateToken payload.UserID payload.Email with
        | .error err2 =>
          (.error err2, [.UserVerifyToken token.Access, .UserVerifyToken token.Refresh,
            .UserCreateToken payload.UserID payload.Email])
        | .ok fresh =>
          (.ok (payload.UserID, some fresh),
            [.UserVerifyToken token.Access, .UserVerifyToken token.Refresh,
              .UserCreateToken payload.UserID payload.Email])

/-- Go `Service.AuthenticateUser`: the user and the refreshed token pair, if any. -/
def Service.AuthenticateUser (s : Service) (token : Token) :
    Except Error (User × Option Token) × List Call :=
  match s.verifyUserToken token with
  | (.error err, calls) => (.error err, calls)
  | (.ok (userID, fresh), calls) =>
    match s.db.GetUser userID with
    | .error err => (.error err, calls ++ [.GetUser userID])
    | .ok user => (.ok (user, fresh), calls ++ [.GetUser userID])

/-- Go `Service.AuthenticateWS`. -/
def Service.AuthenticateWS (s : Service) (token roomID : String) :
    Except Error User × List Call :=
  match s.roomTokenProvider.VerifyToken token with
  | .error err => (.error err, [.RoomVerifyToken token])
  | .ok payload =>
    if payload.RoomID ≠ roomID then
      (.error .ErrRoomIDTokenMismatch, [.RoomVerifyToken token])
    else
      match s.db.GetUser payload.UserID with
      | .error err => (.error err, [.RoomVerifyToken token, .GetUser payload.UserID])
      | .ok user => (.ok user, [.RoomVerifyToken token, .GetUser payload.UserID])

/-! ## jwt.go

`github.com/golang-jwt/jwt/v4` is an external library: the two entry points the providers
call are the fields of `JWT`, a parameter, and `JWT.Lawful` is the part of its contract
the statements rely on, `JWT.Sound` the part about what it rejects.  Instants and
durations are counted in nanoseconds, as `time.Time` and `time.Duration` are;
`time.Now()` is the parameter `now`. -/

/-- Go `time.Duration`, in nanoseconds. -/
abbrev Duration := Int

/-- Go `time.Second`. -/
def second : Duration := 1000000000

/-- The instant held by `jwt.NewNumericDate(t)`: `t` truncated to the whole second
(`t.Truncate(jwt.TimePrecision)`, the precision being one second). -/
def NewNumericDate (t : Time) : Time := t - t % second

/-- The secret key (`[]byte`). -/
abbrev Key := String

/-- The fields of `jwt.RegisteredClaims` the providers set. -/
structure RegisteredClaims where
  ExpiresAt : Time
  IssuedAt : Time
  deriving DecidableEq, Repr

/-- Go `roomClaims`. -/
structure roomClaims where
  UserID : Int
  RoomID : String
  RegisteredClaims : Vego.RegisteredClaims
  deriving DecidableEq, Repr

/-- Go `userClaims`. -/
structure userClaims where
  UserID : Int
  Email : String
  RegisteredClaims : Vego.RegisteredClaims
  deriving DecidableEq, Repr

/-- The dynamic type of `token.Method` as the key function tests it. -/
inductive SigningMethod where
  | HMAC
  | other
  deriving DecidableEq, Repr

/-- The `*jwt.Token` returned by a parse without error. -/
structure ParsedToken (C : Type) where
  Claims : C
  Valid : Bool

/-- The error of a parse, as far as the providers look at it:
`errors.Is(err, jwt.ErrTokenExpired)`. -/
structure ParseError where
  isExpired : Bool
  deriving DecidableEq, Repr

/-- The JWT library for the claims type `C`:
`jwt.NewWithClaims(jwt.SigningMethodHS256, claims).SignedString(key)` and
`jwt.ParseWithClaims(tokenStr, &C{}, keyFunc)` run at the instant `now`. -/
structure JWT (C : Type) where
  SignedString : C → Key → Except Error String
  ParseWithClaims :
    String → (SigningMethod → Except String Key) → Time → Except ParseError (ParsedToken C)

/-- The contract of the library the statements rely on; `reg` reads the registered claims
of a `C`.  Signing with a byte key succeeds and yields a non-empty string; a token signed
with the key the key function returns for HMAC parses back to its claims, valid, from its
issue instant until its expiry, and is rejected as expired from its expiry on. -/
structure JWT.Lawful {C : Type} (lib : JWT C) (reg : C → RegisteredClaims) : Prop where
  sign_ok : ∀ claims key, ∃ tok, lib.SignedString claims key = .ok tok
  sign_nonempty : ∀ claims key tok, lib.SignedString claims key = .ok tok → tok ≠ ""
  parse_signed : ∀ claims key tok keyFunc now,
    lib.SignedString claims key = .ok tok → keyFunc SigningMethod.HMAC = .ok key →
    (reg claims).IssuedAt ≤ now → now < (reg claims).ExpiresAt →
    lib.ParseWithClaims tok keyFunc now = .ok { Claims := claims, Valid := true }
  parse_expired : ∀ claims key tok keyFunc now,
    lib.SignedString claims key = .ok tok → keyFunc SigningMethod.HMAC = .ok key →
    (reg claims).ExpiresAt ≤ now →
    ∃ e, lib.ParseWithClaims tok keyFunc now = .error e ∧ e.isExpired = true

/-- The contract of the library on what it rejects: the signature is checked before the
claims, so only a correctly signed token parses and only a correctly signed token whose
expiry has passed is reported as expired; and a signed token with characters appended is
not a signed token. -/
structure JWT.Sound {C : Type} (lib : JWT C) (reg : C → RegisteredClaims) : Prop where
  expired_only : ∀ tok keyFunc now e,
    lib.ParseWithClaims tok keyFunc now = .error e → e.isExpired = true →
    ∃ claims key, keyFunc SigningMethod.HMAC = .ok key ∧
      lib.SignedString claims key = .ok tok ∧ (reg claims).ExpiresAt ≤ now
  parse_only_signed : ∀ tok keyFunc now token,
    lib.ParseWithClaims tok keyFunc now = .ok token →
    ∃ key, keyFunc SigningMethod.HMAC = .ok key ∧
      lib.SignedString token.Claims key = .ok tok
  sign_append : ∀ claims key tok claims1 extra,
    lib.SignedString claims key = .ok tok → extra ≠ "" →
    lib.SignedString claims1 key ≠ .ok (tok ++ extra)

/-- Go `RoomProvider`. -/
structure RoomProvider where
  secretKey : Key
  tokenTTL : Duration
  deriving DecidableEq, Repr

/-- The key function both providers pass to `jwt.ParseWithClaims`. -/
def keyFunc (secretKey : Key) : SigningMethod → Except String Key
  | .HMAC => .ok secretKey
  | .other => .error "unexpected signing method"

/-- Go `RoomProvider.CreateToken`. -/
def RoomProvider.CreateToken (lib : JWT roomClaims) (rp : RoomProvider) (now : Time)
    (userID : Int) (roomID : String) : Except Error String :=
  lib.SignedString
    { UserID := userID, RoomID := roomID,
      RegisteredClaims :=
        { ExpiresAt := NewNumericDate (now + rp.tokenTTL), IssuedAt := NewNumericDate now } }
    rp.secretKey

/-- Go `RoomProvider.VerifyToken` (the assertion `token.Claims.(*roomClaims)` holds by
the type of the parse). -/
def RoomProvider.VerifyToken (lib : JWT roomClaims) (rp : RoomProvider) (now : Time)
    (tokenStr : String) : Except Error RoomTokenPayload :=
  match lib.ParseWithClaims tokenStr (keyFunc rp.secretKey) now with
  | .error err => if err.isExpired then .error .ErrTokenExpired else .error .ErrTokenInvalid
  | .ok token =>
    if !token.Valid then .error .ErrTokenInvalid
    else .ok { UserID := token.Claims.UserID, RoomID := token.Claims.RoomID }

/-- Go `UserProvider`. -/
structure UserProvider where
  secretKey : Key
  accessTokenTTL : Duration
  refreshTokenTTL : Duration
  deriving DecidableEq, Repr

/-- Go `UserProvider.createToken`. -/
def UserProvider.createToken (lib : JWT userClaims) (up : UserProvider) (userID : Int)
    (email : String) (ttl : Duration) (now : Time) : Except Error String :=
  lib.SignedString
    { UserID := userID, Email := email,
      RegisteredClaims :=
        { ExpiresAt := NewNumericDate (now + ttl), IssuedAt := NewNumericDate now } }
    up.secretKey

/-- Go `UserProvider.CreateToken`. -/
def UserProvider.CreateToken (lib : JWT userClaims) (up : UserProvider) (now : Time)
    (userID : Int) (email : String) : Except Error Token :=
  match up.createToken lib userID email up.accessTokenTTL now with
  | .error err => .error err
  | .ok accessToken =>
    match up.createToken lib userID email up.refreshTokenTTL now with
    | .error err => .error err
    | .ok refreshToken => .ok { Access := accessToken, Refresh := refreshToken }

/-- Go `UserProvider.VerifyToken`. -/
def UserProvider.VerifyToken (lib : JWT userClaims) (up : UserProvider) (now : Time)
    (tokenStr : String) : Except Error UserTokenPayload :=
  if tokenStr = "" then
    .error .ErrTokenExpired
  else
    match lib.ParseWithClaims tokenStr (keyFunc up.secretKey) now with
    | .error err => if err.isExpired then .error .ErrTokenExpired else .error .ErrTokenInvalid
    | .ok token =>
      if !token.Valid then .error .ErrTokenInvalid
      else .ok { UserID := token.Claims.UserID, Email := token.Claims.Email }

/-! ## A model of the JWT library

A token is a run of `x`, whose length encodes the key and the claims, closed by a dot;
parsing decodes the length, checks that the string is the token of what it decoded and
that the key function returns that key for HMAC, and then checks expiry and issue
instant. -/

instance : Encodable Char := Encodable.ofLeftInverse Char.toNat Char.ofNat Char.ofNat_toNat

instance : Encodable String := Encodable.ofLeftInverse String.data String.mk (fun _ => rfl)

instance : Encodable RegisteredClaims :=
  Encodable.ofLeftInverse (fun r => (r.ExpiresAt, r.IssuedAt))
    (fun p => { ExpiresAt := p.1, IssuedAt := p.2 }) (fun _ => rfl)

instance : Encodable roomClaims :=
  Encodable.ofLeftInverse (fun c => (c.UserID, c.RoomID, c.RegisteredClaims))
    (fun p => { UserID := p.1, RoomID := p.2.1, RegisteredClaims := p.2.2 }) (fun _ => rfl)

instance : Encodable userClaims :=
  Encodable.ofLeftInverse (fun c => (c.UserID, c.Email, c.RegisteredClaims))
    (fun p => { UserID := p.1, Email := p.2.1, RegisteredClaims := p.2.2 }) (fun _ => rfl)

/-- The token of the model library for `claims` signed with `key`. -/
def sampleToken {C : Type} [Encodable C] (claims : C) (key : Key) : String :=
  String.mk (List.replicate (Encodable.encode (key, claims)) 'x' ++ ['.'])

/-- The model library. -/
def sampleJWT (C : Type) [Encodable C] (reg : C → RegisteredClaims) : JWT C where
  SignedString := fun claims key => .ok (sampleToken claims key)
  ParseWithClaims := fun tok keyFunc now =>
    match Encodable.decode (α := Key × C) (tok.length - 1) with
    | none => .error { isExpired := false }
    | some (key, claims) =>
      if sampleToken claims key = tok ∧ keyFunc SigningMethod.HMAC = .ok key then
        if (reg claims).ExpiresAt ≤ now then .error { isExpired := true }
        else if now < (reg claims).IssuedAt then .error { isExpired := false }
        else .ok { Claims := claims, Valid := true }
      else .error { isExpired := false }

/-- The room provider of the package tests: one minute of validity. -/
def sampleRoomProvider : RoomProvider :=
  { secretKey := "test-secret", tokenTTL := 60 * second }

/-- A room provider whose tokens are valid for half a second. -/
def shortRoomProvider : RoomProvider :=
  { secretKey := "test-secret", tokenTTL := 500000000 }

/-- The user provider of the package tests: one minute and one hour of validity. -/
def sampleUserProvider : UserProvider :=
  { secretKey := "test-secret", accessTokenTTL := 60 * second,
    refreshTokenTTL := 3600 * second }

/-- The claims of the expired token of the package tests (issued at 1711492844 s, expired
at 1711492904 s). -/
def expiredRoomClaims : roomClaims :=
  { UserID := 1, RoomID := "room1",
    RegisteredClaims :=
      { ExpiresAt := 1711492904 * second, IssuedAt := 1711492844 * second } }

/-- User claims with the instants of the expired token of the package tests. -/
def expiredUserClaims : userClaims :=
  { UserID := 1, Email := "test@example.com",
    RegisteredClaims :=
      { ExpiresAt := 1711492904 * second, IssuedAt := 1711492844 * second } }

/-- A codec for frames a client can send with a server event type: the frames "join"
and "leave" decode as envelopes of these types without data (as `{"type":"join"}` and
`{"type":"leave"}` do); no payload decodes. -/
def clientCodec : Codec where
  unmarshalBase := fun input =>
    if input = "join" then some { Typ := eventJoin, From := "", Data := .nil }
    else if input = "leave" then some { Typ := eventLeave, From := "", Data := .nil }
    else none
  unmarshalChat := fun _ => none
  unmarshalWebRTC := fun _ => none

/-! ## Lemmas on maps and traces -/

namespace userMap

theorem set_of_not_mem_keys (m : userMap) (k : String) (v : user) (h : k ∉ keys m) :
    set m k v = m ++ [(k, v)] := by
  induction m with
  | nil => rfl
  | cons e rest ih =>
    obtain ⟨k', v'⟩ := e
    simp only [keys, List.map_cons, List.mem_cons, not_or] at h
    have hne : ¬ k' = k := fun hk => h.1 hk.symm
    simp only [set, hne, if_false, List.cons_append]
    rw [ih (by simpa [keys] using h.2)]

theorem delete_eq_filter (m : userMap) (k : String) :
    delete m k = m.filter (fun e => decide (e.1 ≠ k)) := by
  induction m with
  | nil => rfl
  | cons e rest ih =>
    obtain ⟨k', v'⟩ := e
    by_cases hk : k' = k
    · simp [delete, hk, ih]
    · simp [delete, hk, ih]

theorem mem_of_get_eq_some {m : userMap} {k : String} {v : user} (h : get m k = some v) :
    (k, v) ∈ m := by
  induction m with
  | nil => simp [get] at h
  | cons e rest ih =>
    obtain ⟨k', v'⟩ := e
    by_cases hk : k' = k
    · simp only [get, hk, if_true, Option.some.injEq] at h
      simp [hk, h]
    · simp only [get, hk, if_false] at h
      exact List.mem_cons_of_mem _ (ih h)

theorem get_eq_none_iff (m : userMap) (k : String) : get m k = none ↔ k ∉ keys m := by
  induction m with
  | nil => simp [get, keys]
  | cons e rest ih =>
    obtain ⟨k', v'⟩ := e
    by_cases hk : k' = k
    · simp [get, keys, hk]
    · have hk' : ¬ k = k' := fun h => hk h.symm
      simpa [get, keys, hk, hk'] using ih

theorem get_eq_some_of_mem {m : userMap} {k : String} {v : user} (hu : uniqueKeys m)
    (h : (k, v) ∈ m) : get m k = some v := by
  induction m with
  | nil => simp at h
  | cons e rest ih =>
    obtain ⟨k', v'⟩ := e
    simp only [uniqueKeys, keys, List.map_cons, List.nodup_cons] at hu
    rcases List.mem_cons.1 h with heq | hmem
    · cases heq
      simp [get]
    · have hne : ¬ k' = k := by
        intro hk
        apply hu.1
        rw [hk]
        exact List.mem_map.2 ⟨(k, v), hmem, rfl⟩
      simp only [get, hne, if_false]
      exact ih hu.2 hmem

theorem innerIDs_eq_keys {m : userMap} (h : keyedByInnerID m) :
    (range m).map user.innerID = keys m := by
  simp only [range, keys, List.map_map]
  apply List.map_congr_left
  intro e he
  exact (h e he).symm

theorem range_append (m m' : userMap) : range (m ++ m') = range m ++ range m' := by
  simp [range]

end userMap

theorem room.wf.nodup_innerIDs {r : room} (h : r.wf) :
    (r.users.range.map user.innerID).Nodup := by
  rw [userMap.innerIDs_eq_keys h.2]
  exact h.1

theorem deliveries_append (id : String) (t t' : List Effect) :
    deliveries id (t ++ t') = deliveries id t ++ deliveries id t' := by
  simp [deliveries]

theorem deliveries_map_send_of_not_mem (id : String) (us : List user)
    (f : user → baseMessage) (h : id ∉ us.map user.innerID) :
    deliveries id (us.map (fun v => Effect.send v (f v))) = [] := by
  induction us with
  | nil => rfl
  | cons v rest ih =>
    simp only [List.map_cons, List.mem_cons, not_or] at h
    have hv : ¬ v.innerID = id := fun hv => h.1 hv.symm
    have := ih h.2
    simp only [deliveries] at this ⊢
    simp [List.filter_cons, Effect.isSendTo, hv, this]

theorem deliveries_map_send (us : List user) (f : user → baseMessage) (u : user)
    (hu : u ∈ us) (hn : (us.map user.innerID).Nodup) :
    deliveries u.innerID (us.map (fun v => Effect.send v (f v))) = [.send u (f u)] := by
  induction us with
  | nil => simp at hu
  | cons v rest ih =>
    simp only [List.map_cons, List.nodup_cons] at hn
    rcases List.mem_cons.1 hu with heq | hmem
    · subst heq
      have := deliveries_map_send_of_not_mem u.innerID rest f hn.1
      simp only [deliveries] at this ⊢
      simp [List.filter_cons, Effect.isSendTo, this]
    · have hv : ¬ v.innerID = u.innerID := by
        intro hv
        apply hn.1
        rw [hv]
        exact List.mem_map.2 ⟨u, hmem, rfl⟩
      have := ih hmem hn.2
      simp only [deliveries] at this ⊢
      simp [List.filter_cons, Effect.isSendTo, hv, this]

theorem closes_map_send (us : List user) (f : user → baseMessage) :
    closes (us.map (fun v => Effect.send v (f v))) = [] := by
  induction us with
  | nil => rfl
  | cons v rest ih => simpa [closes] using ih

theorem sendUserJoinedLoop_eq (r : room) (innerID name avatar : String)
    (hr : r.users.length ≠ 0) (us : List user) :
    sendUserJoinedLoop r innerID name avatar us =
      .ok (us.map (fun v => Effect.send v (joinedMessage r innerID name avatar v))) := by
  induction us with
  | nil => rfl
  | cons v rest ih =>
    by_cases hv : v.innerID = innerID
    · simp [sendUserJoinedLoop, sendUserJoinedTo, createInfoUsers, joinedMessage, hv, hr, ih,
        infoUserOf]
    · simp [sendUserJoinedLoop, sendUserJoinedTo, joinedMessage, hv, ih]

theorem roomAB_wf : roomAB.wf := by
  constructor
  · show (["a", "b"] : List String).Nodup
    decide
  · intro e he
    simp only [roomAB, List.mem_cons, List.mem_singleton, List.not_mem_nil, or_false] at he
    rcases he with h | h <;> subst h <;> rfl

theorem newRoom_wf : newRoom.wf := by
  constructor
  · show ([] : List String).Nodup
    decide
  · intro e he
    simp [newRoom] at he

/-! ## Join -/

theorem handleEvent_joinEvent (c : Codec) (r : room) (J : user)
    (hJ : J.innerID ∉ r.users.keys) :
    handleEvent c r (joinEvent J) =
      .ok ({ r with users := r.users ++ [(J.innerID, J)] },
        (r.users.range ++ [J]).map (fun v => Effect.send v
          (joinedMessage { r with users := r.users ++ [(J.innerID, J)] }
            J.innerID J.name J.avatar v))) := by
  have hlen : (r.users ++ [(J.innerID, J)]).length ≠ 0 := by simp
  simp only [handleEvent, joinEvent, eventJoin, if_true, sendUserJoined,
    userMap.set_of_not_mem_keys _ _ _ hJ]
  rw [sendUserJoinedLoop_eq _ _ _ _ hlen]
  simp [userMap.range]

theorem innerID_ne_of_not_mem_keys {r : room} (hr : r.wf) {id : String}
    (hid : id ∉ r.users.keys) : ∀ v ∈ r.users.range, v.innerID ≠ id := by
  intro v hv hEq
  apply hid
  rw [← userMap.innerIDs_eq_keys hr.2, ← hEq]
  exact List.mem_map.2 ⟨v, hv, rfl⟩

/-- C1: a join event for a session J whose id is not yet a member makes handleEvent send
to J exactly one message; it is of type info with from = J's id, and its users list holds
exactly one entry (inner_id, name, avatar) for each session that was a member before the
join, in some order, and no entry for J itself. -/
theorem handleEvent_join_info_to_joiner (c : Codec) (r : room) (J : user)
    (hr : r.wf) (hJ : J.innerID ∉ r.users.keys) :
    ∃ r1 t L, handleEvent c r (joinEvent J) = .ok (r1, t) ∧
      deliveries J.innerID t =
        [.send J { Typ := eventInfo, From := J.innerID, Data := .info { Users := L } }] ∧
      L.Perm (r.users.range.map infoUserOf) ∧
      ∀ i ∈ L, i.InnerID ≠ J.innerID := by
  have hne := innerID_ne_of_not_mem_keys hr hJ
  have hfilter : (r.users.range ++ [J]).filter (fun v => decide (v.innerID ≠ J.innerID)) =
      r.users.range := by
    rw [List.filter_append]
    have h1 : r.users.range.filter (fun v => decide (v.innerID ≠ J.innerID)) =
        r.users.range := by
      apply List.filter_eq_self.2
      intro v hv
      simpa using hne v hv
    rw [h1]
    simp
  refine ⟨_, _, r.users.range.map infoUserOf, handleEvent_joinEvent c r J hJ, ?_,
    List.Perm.refl _, ?_⟩
  · rw [List.map_append, deliveries_append, deliveries_map_send_of_not_mem]
    · simp only [List.map_cons, List.map_nil, List.nil_append, deliveries, List.filter_cons,
        Effect.isSendTo, decide_True, if_true, List.filter_nil, joinedMessage,
        userMap.range_append]
      have hJr : userMap.range [(J.innerID, J)] = [J] := rfl
      rw [hJr, hfilter]
    · intro hmem
      obtain ⟨v, hv, hEq⟩ := List.mem_map.1 hmem
      exact hne v hv hEq
  · intro i hi
    obtain ⟨v, hv, hEq⟩ := List.mem_map.1 hi
    subst hEq
    exact hne v hv

theorem handleEvent_join_info_to_joiner_witness :
    ∃ r1 t L, handleEvent sampleCodec roomAB (joinEvent carol) = .ok (r1, t) ∧
      deliveries carol.innerID t =
        [.send carol
          { Typ := eventInfo, From := carol.innerID, Data := .info { Users := L } }] ∧
      L.Perm (roomAB.users.range.map infoUserOf) ∧
      ∀ i ∈ L, i.InnerID ≠ carol.innerID :=
  handleEvent_join_info_to_joiner sampleCodec roomAB carol roomAB_wf (by decide)

/-- C2: when a new session J joins, each session that was already a member receives
exactly one message; it is of type join with from = J's id and payload J's name and
avatar, so no pre-existing member receives an info message. -/
theorem handleEvent_join_broadcast_to_members (c : Codec) (r : room) (J : user)
    (hr : r.wf) (hJ : J.innerID ∉ r.users.keys) :
    ∃ r1 t, handleEvent c r (joinEvent J) = .ok (r1, t) ∧
      ∀ u ∈ r.users.range,
        deliveries u.innerID t =
          [.send u { Typ := eventJoin, From := J.innerID,
                     Data := .join { Name := J.name, Avatar := J.avatar } }] ∧
        ∀ m, Effect.send u m ∈ t → m.Typ ≠ eventInfo := by
  have hne := innerID_ne_of_not_mem_keys hr hJ
  refine ⟨_, _, handleEvent_joinEvent c r J hJ, ?_⟩
  intro u hu
  have hnodup : ((r.users.range ++ [J]).map user.innerID).Nodup := by
    rw [List.map_append]
    apply List.Nodup.append hr.nodup_innerIDs (by simp)
    intro id h1 h2
    simp only [List.map_cons, List.map_nil, List.mem_singleton] at h2
    obtain ⟨v, hv, hEq⟩ := List.mem_map.1 h1
    exact hne v hv (hEq.trans h2)
  have hdel := deliveries_map_send (r.users.range ++ [J])
    (joinedMessage { r with users := r.users ++ [(J.innerID, J)] } J.innerID J.name J.avatar)
    u (List.mem_append_left _ hu) hnodup
  have hmsg : joinedMessage { r with users := r.users ++ [(J.innerID, J)] }
      J.innerID J.name J.avatar u =
      { Typ := eventJoin, From := J.innerID,
        Data := .join { Name := J.name, Avatar := J.avatar } } := by
    simp [joinedMessage, hne u hu]
  rw [hmsg] at hdel
  refine ⟨hdel, ?_⟩
  intro m hm
  have hm' : Effect.send u m ∈ deliveries u.innerID
      ((r.users.range ++ [J]).map (fun v => Effect.send v
        (joinedMessage { r with users := r.users ++ [(J.innerID, J)] }
          J.innerID J.name J.avatar v))) := by
    simp only [deliveries, List.mem_filter]
    exact ⟨hm, by simp [Effect.isSendTo]⟩
  rw [hdel] at hm'
  simp only [List.mem_singleton, Effect.send.injEq, true_and] at hm'
  rw [hm']
  show eventJoin ≠ eventInfo
  decide

theorem handleEvent_join_broadcast_to_members_witness :
    ∃ r1 t, handleEvent sampleCodec roomAB (joinEvent carol) = .ok (r1, t) ∧
      ∀ u ∈ roomAB.users.range,
        deliveries u.innerID t =
          [.send u { Typ := eventJoin, From := carol.innerID,
                     Data := .join { Name := carol.name, Avatar := carol.avatar } }] ∧
        ∀ m, Effect.send u m ∈ t → m.Typ ≠ eventInfo :=
  handleEvent_join_broadcast_to_members sampleCodec roomAB carol roomAB_wf (by decide)

/-! ## Leave -/

theorem handleEvent_leave_of_get (c : Codec) (r : room) (event : baseMessage) (L : user)
    (hT : event.Typ = eventLeave) (hL : r.users.get event.From = some L) :
    handleEvent c r event =
      .ok ({ r with users := r.users.filter (fun e => decide (e.1 ≠ event.From)) },
        .close L.conn ::
          ((userMap.range (r.users.filter (fun e => decide (e.1 ≠ event.From)))).map
            (fun v => Effect.send v (leaveEvent event.From)))) := by
  have hne : ¬ eventLeave = eventJoin := by decide
  simp only [handleEvent, hT, hne, if_false, if_true, hL, sendUserLeft,
    userMap.delete_eq_filter, leaveEvent]

theorem handleEvent_leave_of_get_none (c : Codec) (r : room) (event : baseMessage)
    (hT : event.Typ = eventLeave) (hL : r.users.get event.From = none) :
    handleEvent c r event = .error .nilDereference := by
  have hne : ¬ eventLeave = eventJoin := by decide
  simp only [handleEvent, hT, hne, if_false, if_true, hL]

/-- C3: a leave event whose from is the id of a current member L makes handleEvent close
L's transport (and no other), remove L from membership leaving all other members in
place, and send exactly one leave message (from = L's id, no data) to each remaining
member and none to L. -/
theorem handleEvent_leave_member (c : Codec) (r : room) (L : user) (d : Any)
    (hr : r.wf) (hL : r.users.get L.innerID = some L) :
    ∃ t, handleEvent c r { Typ := eventLeave, From := L.innerID, Data := d } =
        .ok ({ r with users := r.users.filter (fun e => decide (e.1 ≠ L.innerID)) }, t) ∧
      closes t = [L.conn] ∧
      (∀ u ∈ userMap.range (r.users.filter (fun e => decide (e.1 ≠ L.innerID))),
        deliveries u.innerID t =
          [.send u { Typ := eventLeave, From := L.innerID, Data := .nil }]) ∧
      deliveries L.innerID t = [] := by
  have hsub : List.Sublist (r.users.filter (fun e => decide (e.1 ≠ L.innerID))) r.users :=
    List.filter_sublist _
  have hkeyed : userMap.keyedByInnerID (r.users.filter (fun e => decide (e.1 ≠ L.innerID))) :=
    fun e he => hr.2 e (hsub.subset he)
  have hnodup : ((userMap.range (r.users.filter (fun e => decide (e.1 ≠ L.innerID)))).map
      user.innerID).Nodup := by
    rw [userMap.innerIDs_eq_keys hkeyed]
    exact List.Nodup.sublist (List.Sublist.map _ hsub) hr.1
  refine ⟨_, handleEvent_leave_of_get c r _ L rfl hL, ?_, ?_, ?_⟩
  · simp only [closes, closes_map_send]
  · intro u hu
    have := deliveries_map_send _ (fun _ => leaveEvent L.innerID) u hu hnodup
    simpa [deliveries, List.filter_cons, Effect.isSendTo, leaveEvent] using this
  · have hnot : L.innerID ∉ (userMap.range (r.users.filter (fun e => decide (e.1 ≠ L.innerID)))).map
        user.innerID := by
      rw [userMap.innerIDs_eq_keys hkeyed]
      intro hmem
      obtain ⟨e, he, hEq⟩ := List.mem_map.1 hmem
      have := (List.mem_filter.1 he).2
      simp only [ne_eq, decide_not, Bool.not_eq_eq_eq_not, Bool.not_true,
        decide_eq_false_iff_not] at this
      exact this hEq
    have := deliveries_map_send_of_not_mem L.innerID _ (fun _ => leaveEvent L.innerID) hnot
    simpa [deliveries, List.filter_cons, Effect.isSendTo] using this

theorem handleEvent_leave_member_witness :
    ∃ t, handleEvent sampleCodec roomAB { Typ := eventLeave, From := alice.innerID, Data := .nil } =
        .ok ({ roomAB with
          users := roomAB.users.filter (fun e => decide (e.1 ≠ alice.innerID)) }, t) ∧
      closes t = [alice.conn] ∧
      (∀ u ∈ userMap.range (roomAB.users.filter (fun e => decide (e.1 ≠ alice.innerID))),
        deliveries u.innerID t =
          [.send u { Typ := eventLeave, From := alice.innerID, Data := .nil }]) ∧
      deliveries alice.innerID t = [] :=
  handleEvent_leave_member sampleCodec roomAB alice .nil roomAB_wf (by decide)

/-- C4 (the code departs from it): a leave event for a session id that is not a member
is not a no-op. handleEvent dereferences the nil pointer the membership lookup returns:
a leave for the unknown id "zed" panics, and so does the second of two leaves for alice,
which is the sequence the listen loop produces when a client sends a leave frame and then
disconnects. -/
theorem handleEvent_leave_unknown_panics :
    handleEvent sampleCodec roomAB (leaveEvent "zed") = .error .nilDereference ∧
    run sampleCodec roomAB [leaveEvent "a", leaveEvent "a"] = .error .nilDereference ∧
    join sampleCodec carol [.message "leave", .err] =
      ([joinEvent carol, leaveEvent "c", leaveEvent "c"], true) ∧
    run sampleCodec roomAB [joinEvent carol, leaveEvent "c", leaveEvent "c"] =
      .error .nilDereference := by
  decide

/-! ## Chat and signalling -/

theorem eventChatMessage_ne : ¬ eventChatMessage = eventJoin ∧ ¬ eventChatMessage = eventLeave := by
  decide

theorem signalling_ne {t : eventType}
    (ht : t = eventOffer ∨ t = eventAnswer ∨ t = eventIceCandidate) :
    ¬ t = eventJoin ∧ ¬ t = eventLeave ∧ ¬ t = eventChatMessage := by
  rcases ht with h | h | h <;> subst h <;> decide

/-- C5: a chat-message event from session S whose data is a string that decodes as a chat
payload makes handleEvent send to every current member exactly one chat-message with
from = S carrying the decoded payload (its content unmodified); S itself, when a member,
is among the recipients; membership is unchanged. -/
theorem handleEvent_chat_broadcast (c : Codec) (r : room) (event : baseMessage)
    (s : String) (msg : chatMessage) (hr : r.wf)
    (hT : event.Typ = eventChatMessage) (hD : event.Data = .str s)
    (hdec : c.unmarshalChat s = some msg) :
    ∃ t, handleEvent c r event = .ok (r, t) ∧
      (∀ u ∈ r.users.range,
        deliveries u.innerID t =
          [.send u { Typ := eventChatMessage, From := event.From, Data := .chat msg }]) ∧
      (∀ S, r.users.get event.From = some S →
        deliveries event.From t =
          [.send S { Typ := eventChatMessage, From := event.From, Data := .chat msg }]) := by
  have hrun : handleEvent c r event = .ok (r, sendChatMessage r event.From msg) := by
    simp only [handleEvent, hT, eventChatMessage_ne.1, eventChatMessage_ne.2, if_false,
      if_true, hD, unmarshalClientData, hdec]
  have hall : ∀ u ∈ r.users.range,
      deliveries u.innerID (sendChatMessage r event.From msg) =
        [.send u { Typ := eventChatMessage, From := event.From, Data := .chat msg }] :=
    fun u hu => deliveries_map_send r.users.range
      (fun _ => { Typ := eventChatMessage, From := event.From, Data := .chat msg }) u hu
      hr.nodup_innerIDs
  refine ⟨_, hrun, hall, ?_⟩
  intro S hS
  have hmem := userMap.mem_of_get_eq_some hS
  have hid : event.From = S.innerID := hr.2 _ hmem
  have hSr : S ∈ r.users.range := List.mem_map.2 ⟨_, hmem, rfl⟩
  rw [hid]
  have := hall S hSr
  rwa [hid] at this

theorem handleEvent_chat_broadcast_witness :
    ∃ t, handleEvent sampleCodec roomAB
        { Typ := eventChatMessage, From := "b", Data := .str "hi" } = .ok (roomAB, t) ∧
      (∀ u ∈ roomAB.users.range,
        deliveries u.innerID t =
          [.send u { Typ := eventChatMessage, From := "b",
                     Data := .chat { Content := "hi", Ts := 0 } }]) ∧
      (∀ S, roomAB.users.get "b" = some S →
        deliveries "b" t =
          [.send S { Typ := eventChatMessage, From := "b",
                     Data := .chat { Content := "hi", Ts := 0 } }]) :=
  handleEvent_chat_broadcast sampleCodec roomAB
    { Typ := eventChatMessage, From := "b", Data := .str "hi" } "hi"
    { Content := "hi", Ts := 0 } roomAB_wf rfl rfl (by decide)

/-- C6: an offer, answer or ice-candidate event whose data is a string that decodes as a
signalling payload with target T: if T is a current member the whole trace is one message,
sent to T, and it is the original envelope (same type, from and data); if T is not a
member the trace is empty; membership is unchanged in both cases. -/
theorem handleEvent_signal_forward (c : Codec) (r : room) (event : baseMessage)
    (s : String) (msg : webRTCMessage)
    (hT : event.Typ = eventOffer ∨ event.Typ = eventAnswer ∨ event.Typ = eventIceCandidate)
    (hD : event.Data = .str s) (hdec : c.unmarshalWebRTC s = some msg) :
    (∀ T, r.users.get msg.To = some T → handleEvent c r event = .ok (r, [.send T event])) ∧
    (r.users.get msg.To = none → handleEvent c r event = .ok (r, [])) := by
  obtain ⟨h1, h2, h3⟩ := signalling_ne hT
  have hrun : handleEvent c r event = .ok (r, forwardMessage r event msg.To) := by
    simp only [handleEvent, h1, h2, h3, if_false, hT, if_true, hD, unmarshalClientData, hdec]
  constructor
  · intro T hTm
    rw [hrun]
    simp only [forwardMessage, hTm]
  · intro hnone
    rw [hrun]
    simp only [forwardMessage, hnone]

theorem handleEvent_signal_forward_witness :
    (∀ T, roomAB.users.get "b" = some T →
      handleEvent sampleCodec roomAB { Typ := eventOffer, From := "a", Data := .str "b" } =
        .ok (roomAB, [.send T { Typ := eventOffer, From := "a", Data := .str "b" }])) ∧
    (roomAB.users.get "b" = none →
      handleEvent sampleCodec roomAB { Typ := eventOffer, From := "a", Data := .str "b" } =
        .ok (roomAB, [])) :=
  handleEvent_signal_forward sampleCodec roomAB
    { Typ := eventOffer, From := "a", Data := .str "b" } "b" { To := "b", Content := "sdp" }
    (Or.inl rfl) rfl (by decide)

/-- C8: a chat-message, offer, answer or ice-candidate event whose data is not a string,
or is a string that the decoder of its type rejects, makes handleEvent emit no message,
close no transport and leave the room unchanged. -/
theorem handleEvent_decode_failure (c : Codec) (r : room) (event : baseMessage)
    (h : (event.Typ = eventChatMessage ∧
          ((∀ s, event.Data ≠ .str s) ∨ ∃ s, event.Data = .str s ∧ c.unmarshalChat s = none)) ∨
         ((event.Typ = eventOffer ∨ event.Typ = eventAnswer ∨ event.Typ = eventIceCandidate) ∧
          ((∀ s, event.Data ≠ .str s) ∨
            ∃ s, event.Data = .str s ∧ c.unmarshalWebRTC s = none))) :
    handleEvent c r event = .ok (r, []) := by
  have hdata : ∀ {T : Type} (dec : String → Option T),
      ((∀ s, event.Data ≠ .str s) ∨ ∃ s, event.Data = .str s ∧ dec s = none) →
      unmarshalClientData dec event.Data = none := by
    intro T dec hd
    rcases hd with hns | ⟨s, hs, hnone⟩
    · cases hdat : event.Data with
      | str s => exact absurd hdat (hns s)
      | nil => rfl
      | user u => rfl
      | other raw => rfl
      | join m => rfl
      | info m => rfl
      | chat m => rfl
    · rw [hs]
      exact hnone
  rcases h with ⟨hT, hd⟩ | ⟨hT, hd⟩
  · simp only [handleEvent, hT, eventChatMessage_ne.1, eventChatMessage_ne.2, if_false,
      if_true, hdata c.unmarshalChat hd]
  · obtain ⟨h1, h2, h3⟩ := signalling_ne hT
    simp only [handleEvent, h1, h2, h3, if_false, hT, if_true, hdata c.unmarshalWebRTC hd]

theorem handleEvent_decode_failure_witness :
    handleEvent sampleCodec roomAB { Typ := eventAnswer, From := "a", Data := .str "" } =
      .ok (roomAB, []) :=
  handleEvent_decode_failure sampleCodec roomAB
    { Typ := eventAnswer, From := "a", Data := .str "" }
    (Or.inr ⟨Or.inr (Or.inl rfl), Or.inr ⟨"", rfl, by decide⟩⟩)

/-- C9: an event whose type is none of join, leave, chat-message, offer, answer and
ice-candidate (info and every unknown string included) makes handleEvent emit nothing and
leave the room unchanged. -/
theorem handleEvent_unknown_type (c : Codec) (r : room) (event : baseMessage)
    (h1 : event.Typ ≠ eventJoin) (h2 : event.Typ ≠ eventLeave)
    (h3 : event.Typ ≠ eventChatMessage) (h4 : event.Typ ≠ eventOffer)
    (h5 : event.Typ ≠ eventAnswer) (h6 : event.Typ ≠ eventIceCandidate) :
    handleEvent c r event = .ok (r, []) := by
  simp only [handleEvent, h1, h2, h3, h4, h5, h6, if_false, or_self]

theorem handleEvent_unknown_type_witness :
    handleEvent sampleCodec roomAB { Typ := eventInfo, From := "a", Data := .str "hi" } =
      .ok (roomAB, []) :=
  handleEvent_unknown_type sampleCodec roomAB
    { Typ := eventInfo, From := "a", Data := .str "hi" }
    (by decide) (by decide) (by decide) (by decide) (by decide) (by decide)

/-! ## The listen loop -/

theorem listenLoop_from (c : Codec) (innerID : String) (sched : List Select) :
    ∀ e ∈ (listenLoop c innerID sched).1, e.From = innerID := by
  induction sched with
  | nil => simp [listenLoop]
  | cons x rest ih =>
    cases x with
    | tick pingErr =>
      cases pingErr
      · simpa [listenLoop] using ih
      · simp [listenLoop]
    | message input =>
      cases hdec : c.unmarshalBase input with
      | none => simpa [listenLoop, hdec] using ih
      | some m =>
        intro e he
        simp only [listenLoop, hdec, List.mem_cons] at he
        rcases he with h | h
        · rw [h]
        · exact ih e h
    | err => simp [listenLoop]

theorem listenLoop_append_message (c : Codec) (innerID : String) (pre rest : List Select)
    (f1 f2 : Frame)
    (h : listenLoop c innerID (.message f1 :: rest) = listenLoop c innerID (.message f2 :: rest)) :
    listenLoop c innerID (pre ++ .message f1 :: rest) =
      listenLoop c innerID (pre ++ .message f2 :: rest) := by
  induction pre with
  | nil => simpa using h
  | cons x pre ih =>
    cases x with
    | tick pingErr => cases pingErr <;> simp [listenLoop, ih]
    | message input => simp [listenLoop, ih]
    | err => simp [listenLoop]

/-- C7: for an inbound frame that decodes as an envelope, the envelope the listen loop
hands to the room is the decoded one with from replaced by the session id; every envelope
the loop hands over has from equal to the session id; and two frames whose decoded
envelopes differ only in from lead, at any point of the stream, to the same events. -/
theorem listen_overwrites_from (c : Codec) (innerID : String) (pre rest : List Select)
    (f1 f2 : Frame) (m1 m2 : baseMessage)
    (h1 : c.unmarshalBase f1 = some m1) (h2 : c.unmarshalBase f2 = some m2)
    (hT : m1.Typ = m2.Typ) (hD : m1.Data = m2.Data) :
    listenLoop c innerID (.message f1 :: rest) =
      ({ Typ := m1.Typ, From := innerID, Data := m1.Data } :: (listenLoop c innerID rest).1,
        (listenLoop c innerID rest).2) ∧
    listen c innerID (pre ++ .message f1 :: rest) =
      listen c innerID (pre ++ .message f2 :: rest) ∧
    ∀ sched, ∀ e ∈ (listenLoop c innerID sched).1, e.From = innerID := by
  have hstep : listenLoop c innerID (.message f1 :: rest) =
      listenLoop c innerID (.message f2 :: rest) := by
    simp only [listenLoop, h1, h2, hT, hD]
  refine ⟨?_, ?_, listenLoop_from c innerID⟩
  · simp only [listenLoop, h1]
  · simp only [listen, listenLoop_append_message c innerID pre rest f1 f2 hstep]

theorem listen_overwrites_from_witness :
    listenLoop sampleCodec "c" (.message "chat hi" :: [.err]) =
      ({ Typ := eventChatMessage, From := "c", Data := .str "hi" } ::
          (listenLoop sampleCodec "c" [.err]).1,
        (listenLoop sampleCodec "c" [.err]).2) ∧
    listen sampleCodec "c" ([.tick false] ++ .message "chat hi" :: [.err]) =
      listen sampleCodec "c" ([.tick false] ++ .message "chat hi as a" :: [.err]) ∧
    ∀ sched, ∀ e ∈ (listenLoop sampleCodec "c" sched).1, e.From = "c" :=
  listen_overwrites_from sampleCodec "c" [.tick false] [.err] "chat hi" "chat hi as a"
    { Typ := eventChatMessage, From := "", Data := .str "hi" }
    { Typ := eventChatMessage, From := "a", Data := .str "hi" }
    (by decide) (by decide) rfl rfl

theorem listenLoop_of_stream (c : Codec) (innerID : String) (sched : List Select) :
    ∀ frames : List Frame,
      sched.filter (fun x => !x.isTick) = frames.map Select.message ++ [.err] →
      Select.tick true ∉ sched →
      listenLoop c innerID sched = (frames.filterMap (envelopeOf c innerID), true) := by
  induction sched with
  | nil =>
    intro frames hin _
    cases frames <;> simp at hin
  | cons x rest ih =>
    intro frames hin hping
    have hrest : Select.tick true ∉ rest := fun h => hping (List.mem_cons_of_mem _ h)
    cases x with
    | tick pingErr =>
      cases pingErr
      · simp only [List.filter_cons, Select.isTick, Bool.not_true, Bool.false_eq_true,
          if_false] at hin
        simpa [listenLoop] using ih frames hin hrest
      · exact absurd (List.mem_cons_self _ _) hping
    | message input =>
      simp only [List.filter_cons, Select.isTick, Bool.not_false, if_true] at hin
      cases frames with
      | nil => simp at hin
      | cons f frames =>
        simp only [List.map_cons, List.cons_append, List.cons.injEq,
          Select.message.injEq] at hin
        obtain ⟨hf, htail⟩ := hin
        subst hf
        have := ih frames htail hrest
        cases hdec : c.unmarshalBase input with
        | none => simp [listenLoop, hdec, this, envelopeOf]
        | some m => simp [listenLoop, hdec, this, envelopeOf]
    | err =>
      simp only [List.filter_cons, Select.isTick, Bool.not_false, if_true] at hin
      cases frames with
      | nil => simp [listenLoop]
      | cons f frames => simp at hin

/-- C10 (as the code has it): when the inbound stream of a connection is a finite
sequence of frames followed by a read failure and no keepalive ping write fails before
that read failure is taken, room.join returns and the events it has put in the mailbox
are, in order: the join event carrying the session, one envelope per frame that decodes
(undecodable frames are skipped), and last a leave event with from = the session id. -/
theorem join_events_of_stream (c : Codec) (u : user) (frames : List Frame)
    (sched : List Select)
    (hin : sched.filter (fun x => !x.isTick) = frames.map Select.message ++ [.err])
    (hping : Select.tick true ∉ sched) :
    join c u sched =
      (joinEvent u :: (frames.filterMap (envelopeOf c u.innerID) ++ [leaveEvent u.innerID]),
        true) := by
  simp only [join, listen, listenLoop_of_stream c u.innerID sched frames hin hping, if_true]

theorem join_events_of_stream_witness :
    join sampleCodec carol [.tick false, .message "chat hi", .message "junk", .err] =
      (joinEvent carol ::
        (["chat hi", "junk"].filterMap (envelopeOf sampleCodec carol.innerID) ++
          [leaveEvent carol.innerID]), true) :=
  join_events_of_stream sampleCodec carol ["chat hi", "junk"]
    [.tick false, .message "chat hi", .message "junk", .err] (by decide) (by decide)

/-- C10 as stated fails: the inbound stream is the frame "chat hi" followed by a read
failure, but the ping ticker fires first and the ping write fails, so the loop returns
before handling the frame and the session contributes only join and leave. -/
theorem join_events_ping_failure :
    [Select.tick true, .message "chat hi", .err].filter (fun x => !x.isTick) =
      ["chat hi"].map Select.message ++ [.err] ∧
    envelopeOf sampleCodec carol.innerID "chat hi" =
      some { Typ := eventChatMessage, From := "c", Data := .str "hi" } ∧
    join sampleCodec carol [.tick true, .message "chat hi", .err] =
      ([joinEvent carol, leaveEvent "c"], true) ∧
    join sampleCodec carol [.tick true, .message "chat hi", .err] ≠
      (joinEvent carol ::
        (["chat hi"].filterMap (envelopeOf sampleCodec carol.innerID) ++
          [leaveEvent carol.innerID]), true) := by
  decide

/-! ## The room-state invariant is kept by handleEvent -/

namespace userMap

theorem mem_set {m : userMap} {k : String} {v : user} {e : String × user}
    (he : e ∈ set m k v) : e = (k, v) ∨ e ∈ m := by
  induction m with
  | nil =>
    simp only [set, List.mem_singleton] at he
    exact Or.inl he
  | cons x rest ih =>
    obtain ⟨k', v'⟩ := x
    by_cases hk : k' = k
    · simp only [set, hk, if_true, List.mem_cons] at he
      rcases he with h | h
      · exact Or.inl h
      · exact Or.inr (List.mem_cons_of_mem _ h)
    · simp only [set, hk, if_false, List.mem_cons] at he
      rcases he with h | h
      · exact Or.inr (h ▸ List.mem_cons_self _ _)
      · rcases ih h with h' | h'
        · exact Or.inl h'
        · exact Or.inr (List.mem_cons_of_mem _ h')

theorem mem_keys_set {m : userMap} {k : String} {v : user} {x : String}
    (hx : x ∈ keys (set m k v)) : x = k ∨ x ∈ keys m := by
  obtain ⟨e, he, hEq⟩ := List.mem_map.1 hx
  rcases mem_set he with h | h
  · left
    rw [← hEq, h]
  · right
    exact List.mem_map.2 ⟨e, h, hEq⟩

theorem uniqueKeys_set {m : userMap} (k : String) (v : user) (h : uniqueKeys m) :
    uniqueKeys (set m k v) := by
  induction m with
  | nil => simp [uniqueKeys, keys, set]
  | cons x rest ih =>
    obtain ⟨k', v'⟩ := x
    simp only [uniqueKeys, keys, List.map_cons, List.nodup_cons] at h
    by_cases hk : k' = k
    · subst hk
      simpa [uniqueKeys, keys, set] using h
    · simp only [uniqueKeys, keys, set, hk, if_false, List.map_cons, List.nodup_cons]
      refine ⟨?_, ih h.2⟩
      intro hmem
      rcases mem_keys_set hmem with h' | h'
      · exact hk h'
      · exact h.1 h'

theorem keyedByInnerID_set {m : userMap} (v : user) (h : keyedByInnerID m) :
    keyedByInnerID (set m v.innerID v) := by
  intro e he
  rcases mem_set he with h' | h'
  · rw [h']
  · exact h e h'

end userMap

theorem handleEvent_wf (c : Codec) (r r1 : room) (event : baseMessage) (t : List Effect)
    (hr : r.wf) (h : handleEvent c r event = .ok (r1, t)) : r1.wf := by
  unfold handleEvent at h
  split at h
  · split at h
    · simp only at h
      split at h
      · exact absurd h (by simp)
      · simp only [Except.ok.injEq, Prod.mk.injEq] at h
        rw [← h.1]
        exact ⟨userMap.uniqueKeys_set _ _ hr.1, userMap.keyedByInnerID_set _ hr.2⟩
    · exact absurd h (by simp)
  · split at h
    · split at h
      · exact absurd h (by simp)
      · simp only [Except.ok.injEq, Prod.mk.injEq] at h
        rw [← h.1]
        simp only [userMap.delete_eq_filter]
        have hsub : List.Sublist (r.users.filter (fun e => decide (e.1 ≠ event.From)))
            r.users := List.filter_sublist _
        exact ⟨List.Nodup.sublist (List.Sublist.map _ hsub) hr.1,
          fun e he => hr.2 e (hsub.subset he)⟩
    · split at h
      · split at h <;>
        · simp only [Except.ok.injEq, Prod.mk.injEq] at h
          rw [← h.1]
          exact hr
      · split at h
        · split at h <;>
          · simp only [Except.ok.injEq, Prod.mk.injEq] at h
            rw [← h.1]
            exact hr
        · simp only [Except.ok.injEq, Prod.mk.injEq] at h
          rw [← h.1]
          exact hr

/-! ## The registry -/

namespace roomMap

theorem delete_filter (m : roomMap) (k : String) :
    delete m k = m.filter (fun e => decide (e.1 ≠ k)) := by
  induction m with
  | nil => rfl
  | cons e rest ih =>
    obtain ⟨k', v'⟩ := e
    by_cases hk : k' = k
    · simp [delete, hk, ih]
    · simp [delete, hk, ih]

theorem get_set_self (m : roomMap) (k : String) (v : room) : get (set m k v) k = some v := by
  induction m with
  | nil => simp [set, get]
  | cons e rest ih =>
    obtain ⟨k', v'⟩ := e
    by_cases hk : k' = k
    · simp [set, get, hk]
    · simp [set, get, hk, ih]

theorem get_set_of_ne (m : roomMap) (k k1 : String) (v : room) (h : k1 ≠ k) :
    get (set m k v) k1 = get m k1 := by
  induction m with
  | nil =>
    have h' : ¬ k = k1 := fun e => h e.symm
    simp [set, get, h']
  | cons e rest ih =>
    obtain ⟨k', v'⟩ := e
    by_cases hk : k' = k
    · subst hk
      have h' : ¬ k' = k1 := fun e => h e.symm
      simp [set, get, h']
    · by_cases hk1 : k' = k1
      · subst hk1
        simp [set, get, hk]
      · simp [set, get, hk, hk1, ih]

theorem get_of_mem {m : roomMap} {k : String} {v : room} (hu : uniqueKeys m)
    (h : (k, v) ∈ m) : get m k = some v := by
  induction m with
  | nil => simp at h
  | cons e rest ih =>
    obtain ⟨k', v'⟩ := e
    simp only [uniqueKeys, keys, List.map_cons, List.nodup_cons] at hu
    rcases List.mem_cons.1 h with heq | hmem
    · cases heq
      simp [get]
    · have hne : ¬ k' = k := by
        intro hk
        apply hu.1
        rw [hk]
        exact List.mem_map.2 ⟨(k, v), hmem, rfl⟩
      simp only [get, hne, if_false]
      exact ih hu.2 hmem

end roomMap

theorem roomMap.eq_of_mem_of_fst_eq {m : roomMap} (hu : m.uniqueKeys) {e e' : String × room}
    (he : e ∈ m) (he' : e' ∈ m) (h : e.1 = e'.1) : e = e' := by
  obtain ⟨k, v⟩ := e
  obtain ⟨k', v'⟩ := e'
  simp only at h
  subst h
  have h1 := roomMap.get_of_mem hu he
  have h2 := roomMap.get_of_mem hu he'
  rw [h1] at h2
  simp only [Option.some.injEq] at h2
  rw [h2]

theorem Hub.cleanupLoop_eq (rs : List (String × room)) :
    (∀ e ∈ rs, e.2.done = false) → ∀ h : Hub,
    h.cleanupLoop rs =
      .ok ({ rooms := h.rooms.filter (fun e =>
              decide (e.1 ∉ (rs.filter (fun x => decide (x.2.users.length = 0))).map Prod.fst)) },
        (rs.filter (fun x => decide (x.2.users.length = 0))).map
          (fun x => (x.1, { x.2 with done := true }))) := by
  induction rs with
  | nil =>
    intro _ h
    simp [Hub.cleanupLoop]
  | cons x rest ih =>
    intro hdone h
    obtain ⟨roomID, r⟩ := x
    have hr : r.done = false := hdone (roomID, r) (List.mem_cons_self _ _)
    have hrest : ∀ e ∈ rest, e.2.done = false :=
      fun e he => hdone e (List.mem_cons_of_mem _ he)
    by_cases hempty : r.users.length = 0
    · simp only [Hub.cleanupLoop, hempty, if_true, room.stop, hr, Bool.false_eq_true,
        if_false, ih hrest, roomMap.delete_filter, List.filter_filter]
      simp only [List.filter_cons, hempty, decide_True, if_true, List.map_cons,
        List.mem_cons, not_or, Except.ok.injEq, Prod.mk.injEq, Hub.mk.injEq, and_true]
      apply List.filter_congr
      intro e _
      by_cases h1 : e.1 = roomID <;> simp [h1]
    · have hf : ((roomID, r) :: rest).filter (fun x => decide (x.2.users.length = 0)) =
          rest.filter (fun x => decide (x.2.users.length = 0)) := by
        rw [List.filter_cons]
        simp only [hempty, decide_False, Bool.false_eq_true, if_false]
      rw [hf]
      simp only [Hub.cleanupLoop, hempty, if_false, ih hrest h]

/-- C11: one cleanup sweep over a registry of running rooms (no concurrent change) stops
and removes exactly the rooms whose membership is empty: the registry afterwards holds
precisely the entries whose room has at least one member, each unchanged, and the rooms
stopped are the empty ones; so a registered room that has a member is still registered
under its id after the sweep. -/
theorem Hub_cleanup_removes_empty_rooms (h : Hub) (hh : h.wf) :
    ∃ h1 stopped, h.cleanup = .ok (h1, stopped) ∧
      h1.rooms = h.rooms.filter (fun e => decide (e.2.users.length ≠ 0)) ∧
      stopped = (h.rooms.filter (fun e => decide (e.2.users.length = 0))).map
        (fun e => (e.1, { e.2 with done := true })) ∧
      ∀ roomID r, (roomID, r) ∈ h.rooms → r.users ≠ [] →
        h1.rooms.get roomID = some r ∧ roomID ∉ stopped.map Prod.fst := by
  have hfilter : h.rooms.filter (fun e =>
      decide (e.1 ∉ (h.rooms.filter (fun x => decide (x.2.users.length = 0))).map Prod.fst)) =
      h.rooms.filter (fun e => decide (e.2.users.length ≠ 0)) := by
    apply List.filter_congr
    intro e he
    by_cases hempty : e.2.users.length = 0
    · have hmem : e.1 ∈ (h.rooms.filter (fun x => decide (x.2.users.length = 0))).map
          Prod.fst :=
        List.mem_map.2 ⟨e, List.mem_filter.2 ⟨he, by simpa using hempty⟩, rfl⟩
      simp only [hmem, not_true_eq_false, decide_False, ne_eq, hempty]
    · have hnot : e.1 ∉ (h.rooms.filter (fun x => decide (x.2.users.length = 0))).map
          Prod.fst := by
        intro hmem
        obtain ⟨e', he', hEq⟩ := List.mem_map.1 hmem
        have hm := List.mem_filter.1 he'
        have := roomMap.eq_of_mem_of_fst_eq hh.1 hm.1 he hEq
        subst this
        exact hempty (by simpa using hm.2)
      simp only [hnot, not_false_eq_true, decide_True, ne_eq, hempty]
  refine ⟨_, _, Hub.cleanupLoop_eq h.rooms hh.2 h, hfilter, rfl, ?_⟩
  intro roomID r hmem hne
  have hlen : r.users.length ≠ 0 := by
    intro h0
    exact hne (List.length_eq_zero.1 h0)
  constructor
  · rw [hfilter]
    apply roomMap.get_of_mem
    · exact List.Nodup.sublist (List.Sublist.map _ (List.filter_sublist _)) hh.1
    · exact List.mem_filter.2 ⟨hmem, by simpa using hlen⟩
  · intro hin
    rw [List.map_map] at hin
    obtain ⟨e', he', hEq⟩ := List.mem_map.1 hin
    have hm := List.mem_filter.1 he'
    have := roomMap.eq_of_mem_of_fst_eq hh.1 hm.1 hmem hEq
    subst this
    exact hlen (by simpa using hm.2)

theorem sampleHub_wf : sampleHub.wf := by
  constructor
  · show (["r1", "r2"] : List String).Nodup
    decide
  · intro e he
    simp only [sampleHub, List.mem_cons, List.mem_singleton, List.not_mem_nil, or_false] at he
    rcases he with h | h <;> subst h <;> rfl

theorem Hub_cleanup_removes_empty_rooms_witness :
    ∃ h1 stopped, sampleHub.cleanup = .ok (h1, stopped) ∧
      h1.rooms = sampleHub.rooms.filter (fun e => decide (e.2.users.length ≠ 0)) ∧
      stopped = (sampleHub.rooms.filter (fun e => decide (e.2.users.length = 0))).map
        (fun e => (e.1, { e.2 with done := true })) ∧
      ∀ roomID r, (roomID, r) ∈ sampleHub.rooms → r.users ≠ [] →
        h1.rooms.get roomID = some r ∧ roomID ∉ stopped.map Prod.fst :=
  Hub_cleanup_removes_empty_rooms sampleHub sampleHub_wf

/-- C12: getOrCreateRoom returns the room already registered under the id and leaves the
registry unchanged (starting no actor) when there is one; otherwise it registers a new
room with empty membership under that id, starts its actor and leaves the entry of every
other id as it was; a second call with the same id returns the room of the first call,
changes nothing and starts nothing. -/
theorem Hub_getOrCreateRoom_spec (h : Hub) (roomID : String) :
    (∀ r, h.rooms.get roomID = some r → h.getOrCreateRoom roomID = (h, r, false)) ∧
    (h.rooms.get roomID = none →
      ∃ h1, h.getOrCreateRoom roomID = (h1, newRoom, true) ∧ newRoom.users = [] ∧
        h1.rooms.get roomID = some newRoom ∧
        ∀ k, k ≠ roomID → h1.rooms.get k = h.rooms.get k) ∧
    (h.getOrCreateRoom roomID).1.getOrCreateRoom roomID =
      ((h.getOrCreateRoom roomID).1, (h.getOrCreateRoom roomID).2.1, false) := by
  refine ⟨?_, ?_, ?_⟩
  · intro r hr
    simp only [Hub.getOrCreateRoom, hr]
  · intro hnone
    refine ⟨{ h with rooms := h.rooms.set roomID newRoom }, ?_, rfl,
      roomMap.get_set_self _ _ _, fun k hk => roomMap.get_set_of_ne _ _ _ _ hk⟩
    simp only [Hub.getOrCreateRoom, hnone]
  · cases hget : h.rooms.get roomID with
    | some r => simp only [Hub.getOrCreateRoom, hget]
    | none =>
      simp only [Hub.getOrCreateRoom, hget, roomMap.get_set_self]

/-! ## Account ids do not influence the room -/

namespace userMap

theorem get_withAccount (g : Int → Int) (m : userMap) (k : String) :
    get (m.map (fun e => (e.1, e.2.withAccount g))) k = (get m k).map (user.withAccount g) := by
  induction m with
  | nil => rfl
  | cons e rest ih =>
    obtain ⟨k', v'⟩ := e
    by_cases hk : k' = k
    · simp [get, hk]
    · simp [get, hk, ih]

theorem set_withAccount (g : Int → Int) (m : userMap) (k : String) (v : user) :
    set (m.map (fun e => (e.1, e.2.withAccount g))) k (v.withAccount g) =
      (set m k v).map (fun e => (e.1, e.2.withAccount g)) := by
  induction m with
  | nil => rfl
  | cons e rest ih =>
    obtain ⟨k', v'⟩ := e
    by_cases hk : k' = k
    · simp [set, hk]
    · simp [set, hk, ih]

theorem delete_withAccount (g : Int → Int) (m : userMap) (k : String) :
    delete (m.map (fun e => (e.1, e.2.withAccount g))) k =
      (delete m k).map (fun e => (e.1, e.2.withAccount g)) := by
  induction m with
  | nil => rfl
  | cons e rest ih =>
    obtain ⟨k', v'⟩ := e
    by_cases hk : k' = k
    · simp [delete, hk, ih]
    · simp [delete, hk, ih]

theorem range_withAccount (g : Int → Int) (m : userMap) :
    range (m.map (fun e => (e.1, e.2.withAccount g))) = (range m).map (user.withAccount g) := by
  simp [range, List.map_map, Function.comp_def]

end userMap

theorem createInfoUsers_withAccount (g : Int → Int) (m : userMap) (exclude : String) :
    createInfoUsers (m.map (fun e => (e.1, e.2.withAccount g))) exclude =
      createInfoUsers m exclude := by
  simp only [createInfoUsers, List.length_map, userMap.range_withAccount]
  split
  · rfl
  · congr 1
    induction userMap.range m with
    | nil => rfl
    | cons v rest ih =>
      by_cases hv : v.innerID = exclude
      · simpa [List.filter_cons, user.withAccount, hv] using ih
      · simpa [List.filter_cons, user.withAccount, hv] using ih

theorem sendUserJoinedLoop_withAccount (g : Int → Int) (r : room)
    (innerID name avatar : String) (us : List user) :
    sendUserJoinedLoop (r.withAccount g) innerID name avatar (us.map (user.withAccount g)) =
      match sendUserJoinedLoop r innerID name avatar us with
      | .ok t => .ok (t.map (Effect.withAccount g))
      | .error p => .error p := by
  induction us with
  | nil => rfl
  | cons v rest ih =>
    have hto : sendUserJoinedTo (r.withAccount g) innerID name avatar (v.withAccount g) =
        match sendUserJoinedTo r innerID name avatar v with
        | .ok e => .ok (e.withAccount g)
        | .error p => .error p := by
      simp only [sendUserJoinedTo, room.withAccount, createInfoUsers_withAccount]
      by_cases hv : v.innerID = innerID
      · have hv' : (v.withAccount g).innerID = innerID := hv
        simp only [hv, hv', if_true]
        cases createInfoUsers r.users innerID <;> rfl
      · have hv' : ¬ (v.withAccount g).innerID = innerID := hv
        simp only [hv, hv', if_false]
        rfl
    simp only [List.map_cons, sendUserJoinedLoop, hto, ih]
    cases sendUserJoinedTo r innerID name avatar v with
    | error p => rfl
    | ok e =>
      cases sendUserJoinedLoop r innerID name avatar rest with
      | error p => rfl
      | ok t => rfl

theorem unmarshalClientData_withAccount {T : Type} (dec : String → Option T)
    (g : Int → Int) (d : Any) :
    unmarshalClientData dec (d.withAccount g) = unmarshalClientData dec d := by
  cases d <;> rfl

theorem withAccount_of_unmarshalClientData {T : Type} (dec : String → Option T)
    (g : Int → Int) (event : baseMessage) (x : T)
    (h : unmarshalClientData dec event.Data = some x) : event.withAccount g = event := by
  obtain ⟨typ, sender, d⟩ := event
  cases d <;> first | rfl | simp [unmarshalClientData] at h

theorem handleEvent_of_join (c : Codec) (r : room) (event : baseMessage) (u : user)
    (hT : event.Typ = eventJoin) (hD : event.Data = .user u) :
    handleEvent c r event =
      match sendUserJoined { r with users := r.users.set u.innerID u } event.From
          u.name u.avatar with
      | .error p => .error p
      | .ok sent => .ok ({ r with users := r.users.set u.innerID u }, sent) := by
  simp only [handleEvent, hT, if_true, hD]

theorem handleEvent_of_join_not_user (c : Codec) (r : room) (event : baseMessage)
    (hT : event.Typ = eventJoin) (hD : ∀ u, event.Data ≠ .user u) :
    handleEvent c r event = .error .typeAssertion := by
  cases hd : event.Data with
  | user u => exact absurd hd (hD u)
  | nil => simp only [handleEvent, hT, if_true, hd]
  | str s => simp only [handleEvent, hT, if_true, hd]
  | other raw => simp only [handleEvent, hT, if_true, hd]
  | join m => simp only [handleEvent, hT, if_true, hd]
  | info m => simp only [handleEvent, hT, if_true, hd]
  | chat m => simp only [handleEvent, hT, if_true, hd]

theorem handleEvent_of_chat (c : Codec) (r : room) (event : baseMessage)
    (hT : event.Typ = eventChatMessage) :
    handleEvent c r event =
      match unmarshalClientData c.unmarshalChat event.Data with
      | some msg => .ok (r, sendChatMessage r event.From msg)
      | none => .ok (r, []) := by
  simp only [handleEvent, hT, eventChatMessage_ne.1, eventChatMessage_ne.2, if_false, if_true]

theorem handleEvent_of_signal (c : Codec) (r : room) (event : baseMessage)
    (hT : event.Typ = eventOffer ∨ event.Typ = eventAnswer ∨ event.Typ = eventIceCandidate) :
    handleEvent c r event =
      match unmarshalClientData c.unmarshalWebRTC event.Data with
      | some msg => .ok (r, forwardMessage r event msg.To)
      | none => .ok (r, []) := by
  obtain ⟨h1, h2, h3⟩ := signalling_ne hT
  simp only [handleEvent, h1, h2, h3, if_false, hT, if_true]

theorem handleEvent_of_other (c : Codec) (r : room) (event : baseMessage)
    (h1 : ¬ event.Typ = eventJoin) (h2 : ¬ event.Typ = eventLeave)
    (h3 : ¬ event.Typ = eventChatMessage)
    (h4 : ¬ (event.Typ = eventOffer ∨ event.Typ = eventAnswer ∨
      event.Typ = eventIceCandidate)) :
    handleEvent c r event = .ok (r, []) := by
  simp only [handleEvent, h1, h2, h3, h4, if_false]

theorem sendUserJoined_withAccount (g : Int → Int) (r : room)
    (innerID name avatar : String) :
    sendUserJoined (r.withAccount g) innerID name avatar =
      match sendUserJoined r innerID name avatar with
      | .ok t => .ok (t.map (Effect.withAccount g))
      | .error p => .error p := by
  have h := sendUserJoinedLoop_withAccount g r innerID name avatar r.users.range
  rw [← userMap.range_withAccount] at h
  exact h

theorem handleEvent_withAccount (c : Codec) (g : Int → Int) (r : room)
    (event : baseMessage) :
    handleEvent c (r.withAccount g) (event.withAccount g) =
      outcomeWithAccount g (handleEvent c r event) := by
  have hTyp : (event.withAccount g).Typ = event.Typ := rfl
  have hFrom : (event.withAccount g).From = event.From := rfl
  have hData : (event.withAccount g).Data = event.Data.withAccount g := rfl
  by_cases h1 : event.Typ = eventJoin
  · by_cases hu : ∃ u, event.Data = .user u
    · obtain ⟨u, hd⟩ := hu
      have hd' : (event.withAccount g).Data = .user (u.withAccount g) := by
        rw [hData, hd]
        rfl
      rw [handleEvent_of_join c _ _ (u.withAccount g) (hTyp.trans h1) hd',
        handleEvent_of_join c _ _ u h1 hd]
      have hroom : ({ r.withAccount g with
          users := (r.withAccount g).users.set (u.withAccount g).innerID (u.withAccount g) } :
            room) = ({ r with users := r.users.set u.innerID u } : room).withAccount g := by
        simp only [room.withAccount]
        rw [← userMap.set_withAccount]
        rfl
      rw [hroom, sendUserJoined_withAccount, hFrom]
      have hn : (u.withAccount g).name = u.name := rfl
      have ha : (u.withAccount g).avatar = u.avatar := rfl
      rw [hn, ha]
      cases sendUserJoined { r with users := r.users.set u.innerID u } event.From
        u.name u.avatar <;> rfl
    · have hnu : ∀ u, event.Data ≠ .user u := fun u hd => hu ⟨u, hd⟩
      have hnu' : ∀ u, (event.withAccount g).Data ≠ .user u := by
        intro u hd
        rw [hData] at hd
        cases hdat : event.Data with
        | user v => exact hnu v hdat
        | nil => rw [hdat] at hd; cases hd
        | str s => rw [hdat] at hd; cases hd
        | other raw => rw [hdat] at hd; cases hd
        | join m => rw [hdat] at hd; cases hd
        | info m => rw [hdat] at hd; cases hd
        | chat m => rw [hdat] at hd; cases hd
      rw [handleEvent_of_join_not_user c _ _ (hTyp.trans h1) hnu',
        handleEvent_of_join_not_user c _ _ h1 hnu]
      rfl
  · by_cases h2 : event.Typ = eventLeave
    · cases hget : r.users.get event.From with
      | none =>
        have hget' : (r.withAccount g).users.get (event.withAccount g).From = none := by
          simp only [room.withAccount, hFrom, userMap.get_withAccount, hget, Option.map_none']
        rw [handleEvent_leave_of_get_none c _ _ (hTyp.trans h2) hget',
          handleEvent_leave_of_get_none c _ _ h2 hget]
        rfl
      | some u =>
        have hget' : (r.withAccount g).users.get (event.withAccount g).From =
            some (u.withAccount g) := by
          simp only [room.withAccount, hFrom, userMap.get_withAccount, hget, Option.map_some']
        rw [handleEvent_leave_of_get c _ _ _ (hTyp.trans h2) hget',
          handleEvent_leave_of_get c _ _ _ h2 hget]
        simp only [outcomeWithAccount, room.withAccount, hFrom, List.map_cons, List.map_map,
          List.filter_map, userMap.range, Except.ok.injEq, Prod.mk.injEq, room.mk.injEq,
          and_true]
        exact ⟨rfl, rfl⟩
    · by_cases h3 : event.Typ = eventChatMessage
      · rw [handleEvent_of_chat c (r.withAccount g) (event.withAccount g) h3,
          handleEvent_of_chat c r event h3, hData, unmarshalClientData_withAccount]
        cases unmarshalClientData c.unmarshalChat event.Data with
        | none => rfl
        | some msg =>
          simp only [sendChatMessage, room.withAccount, userMap.range_withAccount,
            outcomeWithAccount, List.map_map]
          rfl
      · by_cases h4 : event.Typ = eventOffer ∨ event.Typ = eventAnswer ∨
            event.Typ = eventIceCandidate
        · cases hdec : unmarshalClientData c.unmarshalWebRTC event.Data with
          | none =>
            rw [handleEvent_of_signal c (r.withAccount g) (event.withAccount g) h4,
              handleEvent_of_signal c r event h4, hData,
              unmarshalClientData_withAccount, hdec]
            rfl
          | some msg =>
            rw [withAccount_of_unmarshalClientData c.unmarshalWebRTC g event msg hdec,
              handleEvent_of_signal c (r.withAccount g) event h4,
              handleEvent_of_signal c r event h4, hdec]
            simp only [forwardMessage, room.withAccount, userMap.get_withAccount]
            cases r.users.get msg.To <;> rfl
        · rw [handleEvent_of_other c (r.withAccount g) (event.withAccount g) h1 h2 h3 h4,
            handleEvent_of_other c r event h1 h2 h3 h4]
          rfl

/-! ## Two joins in a row -/

theorem deliveries_join_joiner (r : room) (J : user) (hr : r.wf)
    (hJ : J.innerID ∉ r.users.keys) :
    deliveries J.innerID ((r.users.range ++ [J]).map (fun v => Effect.send v
      (joinedMessage { r with users := r.users ++ [(J.innerID, J)] }
        J.innerID J.name J.avatar v))) =
      [.send J { Typ := eventInfo, From := J.innerID,
                 Data := .info { Users := r.users.range.map infoUserOf } }] := by
  have hne := innerID_ne_of_not_mem_keys hr hJ
  have hfilter : (r.users.range ++ [J]).filter (fun v => decide (v.innerID ≠ J.innerID)) =
      r.users.range := by
    rw [List.filter_append]
    have h1 : r.users.range.filter (fun v => decide (v.innerID ≠ J.innerID)) =
        r.users.range := by
      apply List.filter_eq_self.2
      intro v hv
      simpa using hne v hv
    rw [h1]
    simp
  rw [List.map_append, deliveries_append, deliveries_map_send_of_not_mem]
  · simp only [List.map_cons, List.map_nil, List.nil_append, deliveries, List.filter_cons,
      Effect.isSendTo, decide_True, if_true, List.filter_nil, joinedMessage,
      userMap.range_append]
    have hJr : userMap.range [(J.innerID, J)] = [J] := rfl
    rw [hJr, hfilter]
  · intro hmem
    obtain ⟨v, hv, hEq⟩ := List.mem_map.1 hmem
    exact hne v hv hEq

theorem deliveries_join_member (r : room) (J u : user) (hr : r.wf)
    (hJ : J.innerID ∉ r.users.keys) (hu : u ∈ r.users.range) :
    deliveries u.innerID ((r.users.range ++ [J]).map (fun v => Effect.send v
      (joinedMessage { r with users := r.users ++ [(J.innerID, J)] }
        J.innerID J.name J.avatar v))) =
      [.send u { Typ := eventJoin, From := J.innerID,
                 Data := .join { Name := J.name, Avatar := J.avatar } }] := by
  have hne := innerID_ne_of_not_mem_keys hr hJ
  have hnodup : ((r.users.range ++ [J]).map user.innerID).Nodup := by
    rw [List.map_append]
    apply List.Nodup.append hr.nodup_innerIDs (by simp)
    intro id h1 h2
    simp only [List.map_cons, List.map_nil, List.mem_singleton] at h2
    obtain ⟨v, hv, hEq⟩ := List.mem_map.1 h1
    exact hne v hv (hEq.trans h2)
  have hdel := deliveries_map_send (r.users.range ++ [J])
    (joinedMessage { r with users := r.users ++ [(J.innerID, J)] } J.innerID J.name J.avatar)
    u (List.mem_append_left _ hu) hnodup
  rw [hdel]
  simp [joinedMessage, hne u hu]

theorem deliveries_join_stranger (r : room) (J : user) (id : String) (hr : r.wf)
    (hid : id ∉ r.users.keys) (hJ : id ≠ J.innerID) :
    deliveries id ((r.users.range ++ [J]).map (fun v => Effect.send v
      (joinedMessage { r with users := r.users ++ [(J.innerID, J)] }
        J.innerID J.name J.avatar v))) = [] := by
  apply deliveries_map_send_of_not_mem
  intro hmem
  obtain ⟨v, hv, hEq⟩ := List.mem_map.1 hmem
  rcases List.mem_append.1 hv with h | h
  · exact innerID_ne_of_not_mem_keys hr hid v h hEq
  · simp only [List.mem_singleton] at h
    subst h
    exact hJ hEq.symm

theorem keys_append_singleton (m : userMap) (k : String) (v : user) :
    userMap.keys (m ++ [(k, v)]) = userMap.keys m ++ [k] := by
  simp [userMap.keys]

/-- C13: two sessions A and B with distinct session ids (whatever their account ids, the
same one included) that join a room in turn are both members afterwards; A receives its
own info and then a join for B, B receives its own info, whose list holds A next to the
previous members; and replacing the account ids in the room and in the event by any
others changes the outcome of handleEvent only by that replacement in the member and
recipient records: membership keys, recipients and messages are the same. -/
theorem join_twice_independent_of_account (c : Codec) (r : room) (A B : user)
    (hr : r.wf) (hA : A.innerID ∉ r.users.keys) (hB : B.innerID ∉ r.users.keys)
    (hAB : A.innerID ≠ B.innerID) :
    (∃ r2 t LA LB, run c r [joinEvent A, joinEvent B] = .ok (r2, t) ∧
      r2.users.get A.innerID = some A ∧ r2.users.get B.innerID = some B ∧
      deliveries A.innerID t =
        [.send A { Typ := eventInfo, From := A.innerID, Data := .info { Users := LA } },
         .send A { Typ := eventJoin, From := B.innerID,
                   Data := .join { Name := B.name, Avatar := B.avatar } }] ∧
      deliveries B.innerID t =
        [.send B { Typ := eventInfo, From := B.innerID, Data := .info { Users := LB } }] ∧
      LA.Perm (r.users.range.map infoUserOf) ∧
      LB.Perm (infoUserOf A :: r.users.range.map infoUserOf)) ∧
    ∀ (g : Int → Int) (r0 : room) (event : baseMessage),
      handleEvent c (r0.withAccount g) (event.withAccount g) =
        outcomeWithAccount g (handleEvent c r0 event) := by
  refine ⟨?_, fun g r0 event => handleEvent_withAccount c g r0 event⟩
  have h1 := handleEvent_joinEvent c r A hA
  have hr1 : ({ r with users := r.users ++ [(A.innerID, A)] } : room).wf :=
    handleEvent_wf c r _ _ _ hr h1
  have hB1 : B.innerID ∉ ({ r with users := r.users ++ [(A.innerID, A)] } : room).users.keys := by
    rw [keys_append_singleton]
    intro hmem
    rcases List.mem_append.1 hmem with h | h
    · exact hB h
    · simp only [List.mem_singleton] at h
      exact hAB h.symm
  have h2 := handleEvent_joinEvent c { r with users := r.users ++ [(A.innerID, A)] } B hB1
  have hr2 := handleEvent_wf c _ _ _ _ hr1 h2
  have hAmem : A ∈ ({ r with users := r.users ++ [(A.innerID, A)] } : room).users.range := by
    simp [userMap.range]
  refine ⟨{ users := (r.users ++ [(A.innerID, A)]) ++ [(B.innerID, B)], done := r.done },
    (r.users.range ++ [A]).map (fun v => Effect.send v
      (joinedMessage { r with users := r.users ++ [(A.innerID, A)] }
        A.innerID A.name A.avatar v)) ++
    ((({ r with users := r.users ++ [(A.innerID, A)] } : room).users.range ++ [B]).map
      (fun v => Effect.send v
        (joinedMessage { users := (r.users ++ [(A.innerID, A)]) ++ [(B.innerID, B)],
                         done := r.done }
          B.innerID B.name B.avatar v)) ++ []),
    r.users.range.map infoUserOf,
    ({ r with users := r.users ++ [(A.innerID, A)] } : room).users.range.map infoUserOf,
    ?_, ?_, ?_, ?_, ?_, List.Perm.refl _, ?_⟩
  · simp only [run, h1, h2]
  · exact userMap.get_eq_some_of_mem hr2.1 (by simp)
  · exact userMap.get_eq_some_of_mem hr2.1 (by simp)
  · rw [deliveries_append, deliveries_append, deliveries_join_joiner r A hr hA,
      deliveries_join_member _ B A hr1 hB1 hAmem]
    rfl
  · rw [deliveries_append, deliveries_append, deliveries_join_stranger r A B.innerID hr hB
        (fun h => hAB h.symm), deliveries_join_joiner _ B hr1 hB1]
    rfl
  · simp only [userMap.range, List.map_append, List.map_cons, List.map_nil]
    exact List.perm_append_singleton _ _

theorem roomB_wf : roomB.wf := by
  constructor
  · show (["b"] : List String).Nodup
    decide
  · intro e he
    simp only [roomB, List.mem_singleton] at he
    subst he
    rfl

theorem join_twice_independent_of_account_witness :
    (∃ r2 t LA LB, run sampleCodec roomB [joinEvent alice, joinEvent carol] = .ok (r2, t) ∧
      r2.users.get alice.innerID = some alice ∧ r2.users.get carol.innerID = some carol ∧
      deliveries alice.innerID t =
        [.send alice { Typ := eventInfo, From := alice.innerID, Data := .info { Users := LA } },
         .send alice { Typ := eventJoin, From := carol.innerID,
                       Data := .join { Name := carol.name, Avatar := carol.avatar } }] ∧
      deliveries carol.innerID t =
        [.send carol { Typ := eventInfo, From := carol.innerID,
                       Data := .info { Users := LB } }] ∧
      LA.Perm (roomB.users.range.map infoUserOf) ∧
      LB.Perm (infoUserOf alice :: roomB.users.range.map infoUserOf)) ∧
    ∀ (g : Int → Int) (r0 : room) (event : baseMessage),
      handleEvent sampleCodec (r0.withAccount g) (event.withAccount g) =
        outcomeWithAccount g (handleEvent sampleCodec r0 event) :=
  join_twice_independent_of_account sampleCodec roomB alice carol roomB_wf
    (by decide) (by decide) (by decide)

/-! ## End to end -/

/-- C14: from an empty room, processing join A, join B, a chat-message from B whose
payload decodes to `msg`, and leave A emits exactly: info with users = [] to A; info with
users = [A] to B and join with the name of B to A (in some order); the chat-message with
from = B and the decoded payload to both A and B (in some order); the close of the
transport of A and leave with from = A to B.  A further leave B empties the membership,
and the next cleanup sweep over a registry holding that room removes it and stops it. -/
theorem end_to_end_scenario (c : Codec) (A B : user) (s : String) (msg : chatMessage)
    (hAB : A.innerID ≠ B.innerID) (hdec : c.unmarshalChat s = some msg) :
    ∃ r1 r2 r3 r4 r5 t2 t3,
      handleEvent c newRoom (joinEvent A) =
        .ok (r1, [.send A { Typ := eventInfo, From := A.innerID,
                            Data := .info { Users := [] } }]) ∧
      handleEvent c r1 (joinEvent B) = .ok (r2, t2) ∧
      t2.Perm [.send B { Typ := eventInfo, From := B.innerID,
                         Data := .info { Users := [infoUserOf A] } },
               .send A { Typ := eventJoin, From := B.innerID,
                         Data := .join { Name := B.name, Avatar := B.avatar } }] ∧
      handleEvent c r2 { Typ := eventChatMessage, From := B.innerID, Data := .str s } =
        .ok (r3, t3) ∧
      t3.Perm [.send A { Typ := eventChatMessage, From := B.innerID, Data := .chat msg },
               .send B { Typ := eventChatMessage, From := B.innerID, Data := .chat msg }] ∧
      handleEvent c r3 (leaveEvent A.innerID) =
        .ok (r4, [.close A.conn,
                  .send B { Typ := eventLeave, From := A.innerID, Data := .nil }]) ∧
      handleEvent c r4 (leaveEvent B.innerID) = .ok (r5, [.close B.conn]) ∧
      r5.users = [] ∧
      ∀ roomID : String,
        Hub.cleanup { rooms := [(roomID, r5)] } =
          .ok ({ rooms := [] }, [(roomID, { r5 with done := true })]) := by
  have hBA : ¬ B.innerID = A.innerID := fun h => hAB h.symm
  have hA0 : A.innerID ∉ newRoom.users.keys := by simp [newRoom, userMap.keys]
  have hB1 : B.innerID ∉ ({ newRoom with users := newRoom.users ++ [(A.innerID, A)] } :
      room).users.keys := by
    simp [newRoom, userMap.keys, hBA]
  have h1 := handleEvent_joinEvent c newRoom A hA0
  have h2 := handleEvent_joinEvent c _ B hB1
  refine ⟨{ users := [(A.innerID, A)], done := false },
    { users := [(A.innerID, A), (B.innerID, B)], done := false },
    { users := [(A.innerID, A), (B.innerID, B)], done := false },
    { users := [(B.innerID, B)], done := false },
    { users := [], done := false },
    [.send A { Typ := eventJoin, From := B.innerID,
               Data := .join { Name := B.name, Avatar := B.avatar } },
     .send B { Typ := eventInfo, From := B.innerID,
               Data := .info { Users := [infoUserOf A] } }],
    [.send A { Typ := eventChatMessage, From := B.innerID, Data := .chat msg },
     .send B { Typ := eventChatMessage, From := B.innerID, Data := .chat msg }],
    ?_, ?_, List.Perm.swap _ _ _, ?_, List.Perm.refl _, ?_, ?_, rfl, ?_⟩
  · rw [h1]
    simp [newRoom, userMap.range, joinedMessage]
  · have h2' := h2
    simp only [newRoom, List.nil_append, userMap.range, List.map_cons, List.map_nil,
      List.cons_append, joinedMessage, hAB, if_false, if_true] at h2'
    rw [h2']
    simp [List.filter_cons, hAB, hBA]
  · rw [handleEvent_of_chat c _ _ rfl]
    simp only [unmarshalClientData, hdec, sendChatMessage, userMap.range, List.map_cons,
      List.map_nil]
  · rw [handleEvent_leave_of_get c _ (leaveEvent A.innerID) A rfl
      (by simp [leaveEvent, userMap.get])]
    simp [leaveEvent, List.filter_cons, hBA, userMap.range]
  · rw [handleEvent_leave_of_get c _ (leaveEvent B.innerID) B rfl
      (by simp [leaveEvent, userMap.get])]
    simp [leaveEvent, List.filter_cons, userMap.range]
  · intro roomID
    simp [Hub.cleanup, Hub.cleanupLoop, room.stop, roomMap.delete]

theorem end_to_end_scenario_witness :
    ∃ r1 r2 r3 r4 r5 t2 t3,
      handleEvent sampleCodec newRoom (joinEvent alice) =
        .ok (r1, [.send alice { Typ := eventInfo, From := alice.innerID,
                                Data := .info { Users := [] } }]) ∧
      handleEvent sampleCodec r1 (joinEvent bob) = .ok (r2, t2) ∧
      t2.Perm [.send bob { Typ := eventInfo, From := bob.innerID,
                           Data := .info { Users := [infoUserOf alice] } },
               .send alice { Typ := eventJoin, From := bob.innerID,
                             Data := .join { Name := bob.name, Avatar := bob.avatar } }] ∧
      handleEvent sampleCodec r2
          { Typ := eventChatMessage, From := bob.innerID, Data := .str "hi" } =
        .ok (r3, t3) ∧
      t3.Perm [.send alice { Typ := eventChatMessage, From := bob.innerID,
                             Data := .chat { Content := "hi", Ts := 0 } },
               .send bob { Typ := eventChatMessage, From := bob.innerID,
                           Data := .chat { Content := "hi", Ts := 0 } }] ∧
      handleEvent sampleCodec r3 (leaveEvent alice.innerID) =
        .ok (r4, [.close alice.conn,
                  .send bob { Typ := eventLeave, From := alice.innerID, Data := .nil }]) ∧
      handleEvent sampleCodec r4 (leaveEvent bob.innerID) = .ok (r5, [.close bob.conn]) ∧
      r5.users = [] ∧
      ∀ roomID : String,
        Hub.cleanup { rooms := [(roomID, r5)] } =
          .ok ({ rooms := [] }, [(roomID, { r5 with done := true })]) :=
  end_to_end_scenario sampleCodec alice bob "hi" { Content := "hi", Ts := 0 }
    (by decide) (by decide)

/-! ## The service -/

/-- C16: AuthenticateWS returns a user exactly when the room token verifies, the room id
of its payload equals the requested room id and the database returns the user of the
payload; a verified token for another room fails with ErrRoomIDTokenMismatch after the
verification alone (the database is not called); a verification error and a database
error are returned unchanged, with no user. -/
theorem AuthenticateWS_spec (s : Service) (token roomID : String) :
    (∀ err, s.roomTokenProvider.VerifyToken token = .error err →
      s.AuthenticateWS token roomID = (.error err, [.RoomVerifyToken token])) ∧
    (∀ payload, s.roomTokenProvider.VerifyToken token = .ok payload →
      payload.RoomID ≠ roomID →
      s.AuthenticateWS token roomID =
        (.error .ErrRoomIDTokenMismatch, [.RoomVerifyToken token])) ∧
    (∀ payload err, s.roomTokenProvider.VerifyToken token = .ok payload →
      payload.RoomID = roomID → s.db.GetUser payload.UserID = .error err →
      s.AuthenticateWS token roomID =
        (.error err, [.RoomVerifyToken token, .GetUser payload.UserID])) ∧
    (∀ payload user, s.roomTokenProvider.VerifyToken token = .ok payload →
      payload.RoomID = roomID → s.db.GetUser payload.UserID = .ok user →
      s.AuthenticateWS token roomID =
        (.ok user, [.RoomVerifyToken token, .GetUser payload.UserID])) ∧
    ((∃ user, (s.AuthenticateWS token roomID).1 = .ok user) ↔
      ∃ payload, s.roomTokenProvider.VerifyToken token = .ok payload ∧
        payload.RoomID = roomID ∧ ∃ user, s.db.GetUser payload.UserID = .ok user) := by
  refine ⟨?_, ?_, ?_, ?_, ?_⟩
  · intro err h
    simp only [Service.AuthenticateWS, h]
  · intro payload h hne
    simp only [Service.AuthenticateWS, h, hne, ne_eq, not_false_eq_true, if_true]
  · intro payload err h heq hdb
    simp only [Service.AuthenticateWS, h, heq, ne_eq, not_true_eq_false, if_false]
    rw [hdb]
  · intro payload user h heq hdb
    simp only [Service.AuthenticateWS, h, heq, ne_eq, not_true_eq_false, if_false]
    rw [hdb]
  · constructor
    · rintro ⟨user, hu⟩
      cases hv : s.roomTokenProvider.VerifyToken token with
      | error err =>
        simp only [Service.AuthenticateWS, hv] at hu
        cases hu
      | ok payload =>
        by_cases heq : payload.RoomID = roomID
        · cases hdb : s.db.GetUser payload.UserID with
          | error err =>
            simp only [Service.AuthenticateWS, hv, heq, ne_eq, not_true_eq_false, if_false]
              at hu
            rw [hdb] at hu
            cases hu
          | ok u => exact ⟨payload, rfl, heq, u, hdb⟩
        · simp only [Service.AuthenticateWS, hv, heq, ne_eq, not_false_eq_true, if_true] at hu
          cases hu
    · rintro ⟨payload, hv, heq, user, hdb⟩
      refine ⟨user, ?_⟩
      simp only [Service.AuthenticateWS, hv, heq, ne_eq, not_true_eq_false, if_false]
      rw [hdb]

/-- C17: AuthenticateUser refreshes the tokens only when the access token is expired.  If
the access token verifies, the result is the user the database returns for the id of the
payload and no new token.  If the access verification reports ErrTokenExpired (which
UserProvider.VerifyToken reports for the empty token too), the refresh token is verified
and, on success, the result is that user together with a new token pair created for the
user id and email of the refresh payload.  Any other access-verification error is
returned after that one call (the refresh token is not consulted); a refresh-verification
error, a token-creation error and a database error are returned; in every failure there
is neither user nor token. -/
theorem AuthenticateUser_spec (s : Service) (token : Token) :
    (∀ payload user, s.userTokenProvider.VerifyToken token.Access = .ok payload →
      s.db.GetUser payload.UserID = .ok user →
      s.AuthenticateUser token =
        (.ok (user, none), [.UserVerifyToken token.Access, .GetUser payload.UserID])) ∧
    (∀ payload err, s.userTokenProvider.VerifyToken token.Access = .ok payload →
      s.db.GetUser payload.UserID = .error err →
      s.AuthenticateUser token =
        (.error err, [.UserVerifyToken token.Access, .GetUser payload.UserID])) ∧
    (∀ err, s.userTokenProvider.VerifyToken token.Access = .error err →
      err.is .ErrTokenExpired = false →
      s.AuthenticateUser token = (.error err, [.UserVerifyToken token.Access])) ∧
    (∀ err payload fresh user, s.userTokenProvider.VerifyToken token.Access = .error err →
      err.is .ErrTokenExpired = true →
      s.userTokenProvider.VerifyToken token.Refresh = .ok payload →
      s.userTokenProvider.CreateToken payload.UserID payload.Email = .ok fresh →
      s.db.GetUser payload.UserID = .ok user →
      s.AuthenticateUser token =
        (.ok (user, some fresh),
          [.UserVerifyToken token.Access, .UserVerifyToken token.Refresh,
            .UserCreateToken payload.UserID payload.Email, .GetUser payload.UserID])) ∧
    (∀ err err1, s.userTokenProvider.VerifyToken token.Access = .error err →
      err.is .ErrTokenExpired = true →
      s.userTokenProvider.VerifyToken token.Refresh = .error err1 →
      s.AuthenticateUser token =
        (.error err1, [.UserVerifyToken token.Access, .UserVerifyToken token.Refresh])) ∧
    (∀ err payload err2, s.userTokenProvider.VerifyToken token.Access = .error err →
      err.is .ErrTokenExpired = true →
      s.userTokenProvider.VerifyToken token.Refresh = .ok payload →
      s.userTokenProvider.CreateToken payload.UserID payload.Email = .error err2 →
      s.AuthenticateUser token =
        (.error err2,
          [.UserVerifyToken token.Access, .UserVerifyToken token.Refresh,
            .UserCreateToken payload.UserID payload.Email])) ∧
    (∀ err payload fresh err3, s.userTokenProvider.VerifyToken token.Access = .error err →
      err.is .ErrTokenExpired = true →
      s.userTokenProvider.VerifyToken token.Refresh = .ok payload →
      s.userTokenProvider.CreateToken payload.UserID payload.Email = .ok fresh →
      s.db.GetUser payload.UserID = .error err3 →
      s.AuthenticateUser token =
        (.error err3,
          [.UserVerifyToken token.Access, .UserVerifyToken token.Refresh,
            .UserCreateToken payload.UserID payload.Email, .GetUser payload.UserID])) ∧
    (∀ user fresh, (s.AuthenticateUser token).1 = .ok (user, some fresh) →
      ∃ err, s.userTokenProvider.VerifyToken token.Access = .error err ∧
        err.is .ErrTokenExpired = true) ∧
    (∀ (lib : JWT userClaims) (up : UserProvider) (now : Time),
      up.VerifyToken lib now "" = .error .ErrTokenExpired) := by
  refine ⟨?_, ?_, ?_, ?_, ?_, ?_, ?_, ?_, ?_⟩
  · intro payload user hv hdb
    simp only [Service.AuthenticateUser, Service.verifyUserToken, hv, hdb, List.singleton_append]
  · intro payload err hv hdb
    simp only [Service.AuthenticateUser, Service.verifyUserToken, hv, hdb, List.singleton_append]
  · intro err hv hexp
    simp only [Service.AuthenticateUser, Service.verifyUserToken, hv, hexp, Bool.not_false,
      if_true]
  · intro err payload fresh user hv hexp hr hc hdb
    simp only [Service.AuthenticateUser, Service.verifyUserToken, hv, hexp, Bool.not_true,
      Bool.false_eq_true, if_false, hr, hc, hdb, List.cons_append, List.nil_append]
  · intro err err1 hv hexp hr
    simp only [Service.AuthenticateUser, Service.verifyUserToken, hv, hexp, Bool.not_true,
      Bool.false_eq_true, if_false, hr]
  · intro err payload err2 hv hexp hr hc
    simp only [Service.AuthenticateUser, Service.verifyUserToken, hv, hexp, Bool.not_true,
      Bool.false_eq_true, if_false, hr, hc]
  · intro err payload fresh err3 hv hexp hr hc hdb
    simp only [Service.AuthenticateUser, Service.verifyUserToken, hv, hexp, Bool.not_true,
      Bool.false_eq_true, if_false, hr, hc, hdb, List.cons_append, List.nil_append]
  · intro user fresh hres
    cases hv : s.userTokenProvider.VerifyToken token.Access with
    | ok payload =>
      simp only [Service.AuthenticateUser, Service.verifyUserToken, hv] at hres
      cases hdb : s.db.GetUser payload.UserID with
      | error e =>
        rw [hdb] at hres
        cases hres
      | ok u =>
        rw [hdb] at hres
        simp at hres
    | error err =>
      refine ⟨err, rfl, ?_⟩
      cases hexp : err.is .ErrTokenExpired with
      | true => rfl
      | false =>
        simp only [Service.AuthenticateUser, Service.verifyUserToken, hv, hexp, Bool.not_false,
          if_true] at hres
        cases hres
  · intro lib up now
    simp only [UserProvider.VerifyToken, if_true]

/-- C18: RegisterUser performs the OAuth callback, then CreateUser with the returned user
and the provider, then CreateToken with the id CreateUser returned and the email of the
user, and returns that token; the first step that fails has its error returned
unchanged, with no token, and no later step is performed. -/
theorem RegisterUser_spec (s : Service) (provider code : String) :
    (∀ err, s.oauthProvider.HandleCallback provider code = .error err →
      s.RegisterUser provider code = (.error err, [.HandleCallback provider code])) ∧
    (∀ user err, s.oauthProvider.HandleCallback provider code = .ok user →
      s.db.CreateUser user provider = .error err →
      s.RegisterUser provider code =
        (.error err, [.HandleCallback provider code, .CreateUser user provider])) ∧
    (∀ user userID err, s.oauthProvider.HandleCallback provider code = .ok user →
      s.db.CreateUser user provider = .ok userID →
      s.userTokenProvider.CreateToken userID user.Email = .error err →
      s.RegisterUser provider code =
        (.error err, [.HandleCallback provider code, .CreateUser user provider,
          .UserCreateToken userID user.Email])) ∧
    (∀ user userID token, s.oauthProvider.HandleCallback provider code = .ok user →
      s.db.CreateUser user provider = .ok userID →
      s.userTokenProvider.CreateToken userID user.Email = .ok token →
      s.RegisterUser provider code =
        (.ok token, [.HandleCallback provider code, .CreateUser user provider,
          .UserCreateToken userID user.Email])) := by
  refine ⟨?_, ?_, ?_, ?_⟩
  · intro err h
    simp only [Service.RegisterUser, h]
  · intro user err h hc
    simp only [Service.RegisterUser, h, hc]
  · intro user userID err h hc ht
    simp only [Service.RegisterUser, h, hc, ht]
  · intro user userID token h hc ht
    simp only [Service.RegisterUser, h, hc, ht]

/-! ## The token providers -/

theorem sampleToken_length {C : Type} [Encodable C] (claims : C) (key : Key) :
    (sampleToken claims key).length - 1 = Encodable.encode (key, claims) := by
  simp [sampleToken, String.length]

theorem sampleJWT_lawful (C : Type) [Encodable C] (reg : C → RegisteredClaims) :
    (sampleJWT C reg).Lawful reg where
  sign_ok := fun claims key => ⟨sampleToken claims key, rfl⟩
  sign_nonempty := by
    intro claims key tok h hempty
    simp only [sampleJWT, Except.ok.injEq] at h
    have hlen := congrArg String.length (h.trans hempty)
    simp [sampleToken, String.length] at hlen
  parse_signed := by
    intro claims key tok keyFunc now h hkey hiat hexp
    simp only [sampleJWT, Except.ok.injEq] at h
    subst h
    simp only [sampleJWT, sampleToken_length, Encodable.encodek, hkey, and_self, if_true,
      not_le.2 hexp, not_lt.2 hiat, if_false]
  parse_expired := by
    intro claims key tok keyFunc now h hkey hexp
    simp only [sampleJWT, Except.ok.injEq] at h
    subst h
    refine ⟨{ isExpired := true }, ?_, rfl⟩
    simp only [sampleJWT, sampleToken_length, Encodable.encodek, hkey, and_self, if_true, hexp]

theorem run_of_x_closed (n : Nat) :
    ∀ (m : Nat) (rest : List Char),
      List.replicate n 'x' ++ ('.' :: rest) = List.replicate m 'x' ++ ['.'] → rest = [] := by
  induction n with
  | zero =>
    intro m rest h
    cases m with
    | zero => simpa using h
    | succ k =>
      simp only [List.replicate, List.nil_append, List.cons_append, List.cons.injEq] at h
      exact absurd h.1 (by decide)
  | succ n ih =>
    intro m rest h
    cases m with
    | zero =>
      simp only [List.replicate, List.cons_append, List.nil_append, List.cons.injEq] at h
      exact absurd h.1 (by decide)
    | succ k =>
      simp only [List.replicate, List.cons_append, List.cons.injEq, true_and] at h
      exact ih k rest h

theorem sampleToken_append {C : Type} [Encodable C] (claims claims1 : C) (key key1 : Key)
    (extra : String) (hextra : extra ≠ "") :
    sampleToken claims1 key1 ≠ sampleToken claims key ++ extra := by
  intro h
  have hdata := congrArg String.data h
  simp only [sampleToken, String.data_append, List.append_assoc, List.singleton_append]
    at hdata
  have hnil := run_of_x_closed _ _ _ hdata.symm
  apply hextra
  cases extra
  simp only at hnil
  rw [hnil]

theorem sampleJWT_sound (C : Type) [Encodable C] (reg : C → RegisteredClaims) :
    (sampleJWT C reg).Sound reg where
  expired_only := by
    intro tok keyFunc now e h he
    simp only [sampleJWT] at h
    cases hdec : Encodable.decode (α := Key × C) (tok.length - 1) with
    | none =>
      rw [hdec] at h
      simp only [Except.error.injEq] at h
      rw [← h] at he
      cases he
    | some kc =>
      obtain ⟨key, claims⟩ := kc
      rw [hdec] at h
      simp only at h
      by_cases hcond : sampleToken claims key = tok ∧ keyFunc SigningMethod.HMAC = .ok key
      · by_cases hexp : (reg claims).ExpiresAt ≤ now
        · exact ⟨claims, key, hcond.2, by simp only [sampleJWT, hcond.1], hexp⟩
        · simp only [hcond, and_self, if_true, hexp, if_false] at h
          by_cases hiat : now < (reg claims).IssuedAt
          · simp only [hiat, if_true, Except.error.injEq] at h
            rw [← h] at he
            cases he
          · simp only [hiat, if_false] at h
            cases h
      · simp only [hcond, if_false, Except.error.injEq] at h
        rw [← h] at he
        cases he
  parse_only_signed := by
    intro tok keyFunc now token h
    simp only [sampleJWT] at h
    cases hdec : Encodable.decode (α := Key × C) (tok.length - 1) with
    | none =>
      rw [hdec] at h
      cases h
    | some kc =>
      obtain ⟨key, claims⟩ := kc
      rw [hdec] at h
      simp only at h
      by_cases hcond : sampleToken claims key = tok ∧ keyFunc SigningMethod.HMAC = .ok key
      · by_cases hexp : (reg claims).ExpiresAt ≤ now
        · simp only [hcond, and_self, if_true, hexp] at h
          cases h
        · simp only [hcond, and_self, if_true, hexp, if_false] at h
          by_cases hiat : now < (reg claims).IssuedAt
          · simp only [hiat, if_true] at h
            cases h
          · simp only [hiat, if_false, Except.ok.injEq] at h
            refine ⟨key, hcond.2, ?_⟩
            rw [← h]
            simp only [sampleJWT, hcond.1]
      · simp only [hcond, if_false] at h
        cases h
  sign_append := by
    intro claims key tok claims1 extra h hextra h1
    simp only [sampleJWT, Except.ok.injEq] at h h1
    rw [← h] at h1
    exact sampleToken_append claims claims1 key key extra hextra h1

theorem keyFunc_HMAC (secretKey key : Key)
    (h : keyFunc secretKey SigningMethod.HMAC = .ok key) : key = secretKey := by
  simp only [keyFunc, Except.ok.injEq] at h
  exact h.symm

theorem append_ne_empty (tok extra : String) (hextra : extra ≠ "") : tok ++ extra ≠ "" := by
  intro h
  apply hextra
  have hdata := congrArg String.data h
  simp only [String.data_append] at hdata
  have hnil : extra.data = [] := (List.append_eq_nil.1 hdata).2
  cases extra
  simp only at hnil
  rw [hnil]

theorem truncate_le (t : Int) : t - t % 1000000000 ≤ t := by
  omega

theorem lt_truncate_add (t ttl : Int) (h : 1000000000 ≤ ttl) :
    t < t + ttl - (t + ttl) % 1000000000 := by
  omega

theorem NewNumericDate_le (t : Time) : NewNumericDate t ≤ t :=
  truncate_le t

theorem lt_NewNumericDate_add (t : Time) (ttl : Duration) (h : second ≤ ttl) :
    t < NewNumericDate (t + ttl) :=
  lt_truncate_add t ttl h

theorem RoomProvider.VerifyToken_room_cases (lib : JWT roomClaims) (rp : RoomProvider)
    (now : Time) (tokenStr : String) :
    ((∃ payload, rp.VerifyToken lib now tokenStr = .ok payload) ∨
      rp.VerifyToken lib now tokenStr = .error .ErrTokenExpired ∨
      rp.VerifyToken lib now tokenStr = .error .ErrTokenInvalid) ∧
    (rp.VerifyToken lib now tokenStr = .error .ErrTokenExpired ↔
      ∃ e, lib.ParseWithClaims tokenStr (keyFunc rp.secretKey) now = .error e ∧
        e.isExpired = true) := by
  cases hp : lib.ParseWithClaims tokenStr (keyFunc rp.secretKey) now with
  | error e =>
    cases he : e.isExpired with
    | true => simp [RoomProvider.VerifyToken, hp, he]
    | false => simp [RoomProvider.VerifyToken, hp, he]
  | ok token =>
    cases hv : token.Valid with
    | true => simp [RoomProvider.VerifyToken, hp, hv]
    | false => simp [RoomProvider.VerifyToken, hp, hv]

theorem UserProvider.VerifyToken_user_cases (lib : JWT userClaims) (up : UserProvider)
    (now : Time) (tokenStr : String) :
    ((∃ payload, up.VerifyToken lib now tokenStr = .ok payload) ∨
      up.VerifyToken lib now tokenStr = .error .ErrTokenExpired ∨
      up.VerifyToken lib now tokenStr = .error .ErrTokenInvalid) ∧
    (up.VerifyToken lib now tokenStr = .error .ErrTokenExpired ↔
      tokenStr = "" ∨
      ∃ e, lib.ParseWithClaims tokenStr (keyFunc up.secretKey) now = .error e ∧
        e.isExpired = true) := by
  by_cases hempty : tokenStr = ""
  · simp [UserProvider.VerifyToken, hempty]
  · cases hp : lib.ParseWithClaims tokenStr (keyFunc up.secretKey) now with
    | error e =>
      cases he : e.isExpired with
      | true => simp [UserProvider.VerifyToken, hempty, hp, he]
      | false => simp [UserProvider.VerifyToken, hempty, hp, he]
    | ok token =>
      cases hv : token.Valid with
      | true => simp [UserProvider.VerifyToken, hempty, hp, hv]
      | false => simp [UserProvider.VerifyToken, hempty, hp, hv]

theorem RoomProvider.VerifyToken_room_expired_iff (lib : JWT roomClaims)
    (hL : lib.Lawful (fun c => c.RegisteredClaims))
    (hS : lib.Sound (fun c => c.RegisteredClaims)) (rp : RoomProvider) (now : Time)
    (tokenStr : String) :
    rp.VerifyToken lib now tokenStr = .error .ErrTokenExpired ↔
      ∃ claims, lib.SignedString claims rp.secretKey = .ok tokenStr ∧
        claims.RegisteredClaims.ExpiresAt ≤ now := by
  rw [(RoomProvider.VerifyToken_room_cases lib rp now tokenStr).2]
  constructor
  · rintro ⟨e, hp, he⟩
    obtain ⟨claims, key, hkey, hsign, hexp⟩ := hS.expired_only _ _ _ e hp he
    rw [keyFunc_HMAC _ _ hkey] at hsign
    exact ⟨claims, hsign, hexp⟩
  · rintro ⟨claims, hsign, hexp⟩
    exact hL.parse_expired claims rp.secretKey tokenStr _ now hsign rfl hexp

theorem UserProvider.VerifyToken_user_expired_iff (lib : JWT userClaims)
    (hL : lib.Lawful (fun c => c.RegisteredClaims))
    (hS : lib.Sound (fun c => c.RegisteredClaims)) (up : UserProvider) (now : Time)
    (tokenStr : String) :
    up.VerifyToken lib now tokenStr = .error .ErrTokenExpired ↔
      tokenStr = "" ∨
      ∃ claims, lib.SignedString claims up.secretKey = .ok tokenStr ∧
        claims.RegisteredClaims.ExpiresAt ≤ now := by
  rw [(UserProvider.VerifyToken_user_cases lib up now tokenStr).2]
  constructor
  · rintro (hempty | ⟨e, hp, he⟩)
    · exact Or.inl hempty
    · obtain ⟨claims, key, hkey, hsign, hexp⟩ := hS.expired_only _ _ _ e hp he
      rw [keyFunc_HMAC _ _ hkey] at hsign
      exact Or.inr ⟨claims, hsign, hexp⟩
  · rintro (hempty | ⟨claims, hsign, hexp⟩)
    · exact Or.inl hempty
    · exact Or.inr (hL.parse_expired claims up.secretKey tokenStr _ now hsign rfl hexp)

theorem RoomProvider.VerifyToken_room_appended (lib : JWT roomClaims)
    (hS : lib.Sound (fun c => c.RegisteredClaims)) (rp : RoomProvider) (now : Time)
    (claims : roomClaims) (tok extra : String)
    (hsign : lib.SignedString claims rp.secretKey = .ok tok) (hextra : extra ≠ "") :
    rp.VerifyToken lib now (tok ++ extra) = .error .ErrTokenInvalid := by
  cases hp : lib.ParseWithClaims (tok ++ extra) (keyFunc rp.secretKey) now with
  | error e =>
    cases he : e.isExpired with
    | true =>
      obtain ⟨claims1, key, hkey, hsign1, _⟩ := hS.expired_only _ _ _ e hp he
      rw [keyFunc_HMAC _ _ hkey] at hsign1
      exact absurd hsign1 (hS.sign_append claims rp.secretKey tok claims1 extra hsign hextra)
    | false => simp [RoomProvider.VerifyToken, hp, he]
  | ok token =>
    obtain ⟨key, hkey, hsign1⟩ := hS.parse_only_signed _ _ _ token hp
    rw [keyFunc_HMAC _ _ hkey] at hsign1
    exact absurd hsign1 (hS.sign_append claims rp.secretKey tok token.Claims extra hsign hextra)

theorem UserProvider.VerifyToken_user_appended (lib : JWT userClaims)
    (hS : lib.Sound (fun c => c.RegisteredClaims)) (up : UserProvider) (now : Time)
    (claims : userClaims) (tok extra : String)
    (hsign : lib.SignedString claims up.secretKey = .ok tok) (hextra : extra ≠ "") :
    up.VerifyToken lib now (tok ++ extra) = .error .ErrTokenInvalid := by
  have hne := append_ne_empty tok extra hextra
  cases hp : lib.ParseWithClaims (tok ++ extra) (keyFunc up.secretKey) now with
  | error e =>
    cases he : e.isExpired with
    | true =>
      obtain ⟨claims1, key, hkey, hsign1, _⟩ := hS.expired_only _ _ _ e hp he
      rw [keyFunc_HMAC _ _ hkey] at hsign1
      exact absurd hsign1 (hS.sign_append claims up.secretKey tok claims1 extra hsign hextra)
    | false => simp [UserProvider.VerifyToken, hne, hp, he]
  | ok token =>
    obtain ⟨key, hkey, hsign1⟩ := hS.parse_only_signed _ _ _ token hp
    rw [keyFunc_HMAC _ _ hkey] at hsign1
    exact absurd hsign1 (hS.sign_append claims up.secretKey tok token.Claims extra hsign hextra)

/-- C19 (as the code has it): token round trip.  With a lawful JWT library and a TTL of
at least one second, the token RoomProvider.CreateToken produces at the instant `now` for
a user id and a room id is accepted by RoomProvider.VerifyToken (same provider, hence
same secret) at `now` itself, and at every later instant before the expiry it carries,
which is `now` plus the TTL truncated to the whole second; the payload has the same user
id and room id.  Likewise the access token of UserProvider.CreateToken is accepted by
UserProvider.VerifyToken with the same user id and email. -/
theorem token_round_trip (libR : JWT roomClaims) (libU : JWT userClaims)
    (hR : libR.Lawful (fun c => c.RegisteredClaims))
    (hU : libU.Lawful (fun c => c.RegisteredClaims))
    (rp : RoomProvider) (up : UserProvider) (userID : Int) (roomID email : String)
    (now : Time) (hroom : second ≤ rp.tokenTTL) (haccess : second ≤ up.accessTokenTTL) :
    (∃ tok, rp.CreateToken libR now userID roomID = .ok tok ∧
      rp.VerifyToken libR now tok = .ok { UserID := userID, RoomID := roomID } ∧
      ∀ later, now ≤ later → later < NewNumericDate (now + rp.tokenTTL) →
        rp.VerifyToken libR later tok = .ok { UserID := userID, RoomID := roomID }) ∧
    (∃ tok, up.CreateToken libU now userID email = .ok tok ∧
      up.VerifyToken libU now tok.Access = .ok { UserID := userID, Email := email } ∧
      ∀ later, now ≤ later → later < NewNumericDate (now + up.accessTokenTTL) →
        up.VerifyToken libU later tok.Access =
          .ok { UserID := userID, Email := email }) := by
  constructor
  · obtain ⟨tok, htok⟩ := hR.sign_ok
      { UserID := userID, RoomID := roomID,
        RegisteredClaims :=
          { ExpiresAt := NewNumericDate (now + rp.tokenTTL),
            IssuedAt := NewNumericDate now } } rp.secretKey
    have hverify : ∀ later, now ≤ later → later < NewNumericDate (now + rp.tokenTTL) →
        rp.VerifyToken libR later tok = .ok { UserID := userID, RoomID := roomID } := by
      intro later hnow hexp
      have hiat : NewNumericDate now ≤ later := le_trans (NewNumericDate_le now) hnow
      have hparse := hR.parse_signed _ _ tok (keyFunc rp.secretKey) later htok rfl hiat hexp
      simp only [RoomProvider.VerifyToken, hparse, Bool.not_true, Bool.false_eq_true,
        if_false]
    exact ⟨tok, htok, hverify now (le_refl _) (lt_NewNumericDate_add now _ hroom), hverify⟩
  · obtain ⟨access, haccessTok⟩ := hU.sign_ok
      { UserID := userID, Email := email,
        RegisteredClaims :=
          { ExpiresAt := NewNumericDate (now + up.accessTokenTTL),
            IssuedAt := NewNumericDate now } } up.secretKey
    obtain ⟨refresh, hrefreshTok⟩ := hU.sign_ok
      { UserID := userID, Email := email,
        RegisteredClaims :=
          { ExpiresAt := NewNumericDate (now + up.refreshTokenTTL),
            IssuedAt := NewNumericDate now } } up.secretKey
    have hne := hU.sign_nonempty _ _ access haccessTok
    have hverify : ∀ later, now ≤ later → later < NewNumericDate (now + up.accessTokenTTL) →
        up.VerifyToken libU later access = .ok { UserID := userID, Email := email } := by
      intro later hnow hexp
      have hiat : NewNumericDate now ≤ later := le_trans (NewNumericDate_le now) hnow
      have hparse := hU.parse_signed _ _ access (keyFunc up.secretKey) later haccessTok rfl
        hiat hexp
      simp only [UserProvider.VerifyToken, hne, if_false, hparse, Bool.not_true,
        Bool.false_eq_true]
    refine ⟨{ Access := access, Refresh := refresh }, ?_,
      hverify now (le_refl _) (lt_NewNumericDate_add now _ haccess), hverify⟩
    simp only [UserProvider.CreateToken, UserProvider.createToken, haccessTok, hrefreshTok]

theorem sample_ttl_ge_second :
    second ≤ sampleRoomProvider.tokenTTL ∧ second ≤ sampleUserProvider.accessTokenTTL := by
  constructor
  · show (1000000000 : Int) ≤ 60 * 1000000000
    decide
  · show (1000000000 : Int) ≤ 60 * 1000000000
    decide

theorem token_round_trip_witness :
    (∃ tok, sampleRoomProvider.CreateToken (sampleJWT roomClaims (fun c => c.RegisteredClaims))
        1700000000123456789 1 "room1" = .ok tok ∧
      sampleRoomProvider.VerifyToken (sampleJWT roomClaims (fun c => c.RegisteredClaims))
        1700000000123456789 tok = .ok { UserID := 1, RoomID := "room1" } ∧
      ∀ later, 1700000000123456789 ≤ later →
        later < NewNumericDate (1700000000123456789 + sampleRoomProvider.tokenTTL) →
        sampleRoomProvider.VerifyToken (sampleJWT roomClaims (fun c => c.RegisteredClaims))
          later tok = .ok { UserID := 1, RoomID := "room1" }) ∧
    (∃ tok, sampleUserProvider.CreateToken (sampleJWT userClaims (fun c => c.RegisteredClaims))
        1700000000123456789 1 "test@example.com" = .ok tok ∧
      sampleUserProvider.VerifyToken (sampleJWT userClaims (fun c => c.RegisteredClaims))
        1700000000123456789 tok.Access = .ok { UserID := 1, Email := "test@example.com" } ∧
      ∀ later, 1700000000123456789 ≤ later →
        later < NewNumericDate (1700000000123456789 + sampleUserProvider.accessTokenTTL) →
        sampleUserProvider.VerifyToken (sampleJWT userClaims (fun c => c.RegisteredClaims))
          later tok.Access = .ok { UserID := 1, Email := "test@example.com" }) :=
  token_round_trip _ _ (sampleJWT_lawful roomClaims _) (sampleJWT_lawful userClaims _)
    sampleRoomProvider sampleUserProvider 1 "room1" "test@example.com" 1700000000123456789
    sample_ttl_ge_second.1 sample_ttl_ge_second.2

/-- C19 as stated fails: the TTL of half a second is positive, yet the token created one
tenth of a second after a whole second expires at that whole second (the expiry
`now` + TTL, six tenths, is truncated to the second), so the provider that has just
produced it rejects it as expired at the same instant. -/
theorem token_round_trip_short_ttl :
    0 < shortRoomProvider.tokenTTL ∧
    NewNumericDate (100000000 + shortRoomProvider.tokenTTL) = 0 ∧
    ∃ tok, shortRoomProvider.CreateToken (sampleJWT roomClaims (fun c => c.RegisteredClaims))
        100000000 1 "room1" = .ok tok ∧
      shortRoomProvider.VerifyToken (sampleJWT roomClaims (fun c => c.RegisteredClaims))
        100000000 tok = .error .ErrTokenExpired := by
  have hexp : NewNumericDate (100000000 + shortRoomProvider.tokenTTL) = 0 := by
    show (100000000 + 500000000 - (100000000 + 500000000) % 1000000000 : Int) = 0
    decide
  refine ⟨by decide, hexp, ?_⟩
  obtain ⟨tok, htok⟩ := (sampleJWT_lawful roomClaims (fun c => c.RegisteredClaims)).sign_ok
    { UserID := 1, RoomID := "room1",
      RegisteredClaims :=
        { ExpiresAt := NewNumericDate (100000000 + shortRoomProvider.tokenTTL),
          IssuedAt := NewNumericDate 100000000 } } shortRoomProvider.secretKey
  refine ⟨tok, htok, ?_⟩
  apply (RoomProvider.VerifyToken_room_cases _ shortRoomProvider 100000000 tok).2.2
  apply (sampleJWT_lawful roomClaims (fun c => c.RegisteredClaims)).parse_expired _
    shortRoomProvider.secretKey tok _ 100000000 htok rfl
  show NewNumericDate (100000000 + shortRoomProvider.tokenTTL) ≤ 100000000
  rw [hexp]
  decide

/-- C20 (as the code has it): with a lawful and sound JWT library, VerifyToken of either
provider returns a payload or an error, never both, and the error is ErrTokenExpired or
ErrTokenInvalid.  A token string is rejected with ErrTokenExpired exactly when it is a
token correctly signed with the secret of the provider whose expiry has passed or, for
UserProvider only, when it is the empty string; every other rejected token string is
rejected with ErrTokenInvalid, and so is every signed token with characters appended. -/
theorem VerifyToken_errors (libR : JWT roomClaims) (libU : JWT userClaims)
    (hR : libR.Lawful (fun c => c.RegisteredClaims))
    (hU : libU.Lawful (fun c => c.RegisteredClaims))
    (sR : libR.Sound (fun c => c.RegisteredClaims))
    (sU : libU.Sound (fun c => c.RegisteredClaims))
    (rp : RoomProvider) (up : UserProvider) (now : Time) (tokR tokU : String) :
    (((∃ payload, rp.VerifyToken libR now tokR = .ok payload) ∨
        rp.VerifyToken libR now tokR = .error .ErrTokenExpired ∨
        rp.VerifyToken libR now tokR = .error .ErrTokenInvalid) ∧
      (rp.VerifyToken libR now tokR = .error .ErrTokenExpired ↔
        ∃ claims, libR.SignedString claims rp.secretKey = .ok tokR ∧
          claims.RegisteredClaims.ExpiresAt ≤ now) ∧
      (∀ claims tok extra, libR.SignedString claims rp.secretKey = .ok tok → extra ≠ "" →
        rp.VerifyToken libR now (tok ++ extra) = .error .ErrTokenInvalid)) ∧
    (((∃ payload, up.VerifyToken libU now tokU = .ok payload) ∨
        up.VerifyToken libU now tokU = .error .ErrTokenExpired ∨
        up.VerifyToken libU now tokU = .error .ErrTokenInvalid) ∧
      (up.VerifyToken libU now tokU = .error .ErrTokenExpired ↔
        tokU = "" ∨
        ∃ claims, libU.SignedString claims up.secretKey = .ok tokU ∧
          claims.RegisteredClaims.ExpiresAt ≤ now) ∧
      (∀ claims tok extra, libU.SignedString claims up.secretKey = .ok tok → extra ≠ "" →
        up.VerifyToken libU now (tok ++ extra) = .error .ErrTokenInvalid)) :=
  ⟨⟨(RoomProvider.VerifyToken_room_cases libR rp now tokR).1,
      RoomProvider.VerifyToken_room_expired_iff libR hR sR rp now tokR,
      fun claims tok extra hsign hextra =>
        RoomProvider.VerifyToken_room_appended libR sR rp now claims tok extra hsign hextra⟩,
    ⟨(UserProvider.VerifyToken_user_cases libU up now tokU).1,
      UserProvider.VerifyToken_user_expired_iff libU hU sU up now tokU,
      fun claims tok extra hsign hextra =>
        UserProvider.VerifyToken_user_appended libU sU up now claims tok extra hsign hextra⟩⟩

theorem VerifyToken_errors_witness :
    (((∃ payload, sampleRoomProvider.VerifyToken
          (sampleJWT roomClaims (fun c => c.RegisteredClaims)) 1800000000000000000
          (sampleToken expiredRoomClaims "test-secret") = .ok payload) ∨
        sampleRoomProvider.VerifyToken
          (sampleJWT roomClaims (fun c => c.RegisteredClaims)) 1800000000000000000
          (sampleToken expiredRoomClaims "test-secret") = .error .ErrTokenExpired ∨
        sampleRoomProvider.VerifyToken
          (sampleJWT roomClaims (fun c => c.RegisteredClaims)) 1800000000000000000
          (sampleToken expiredRoomClaims "test-secret") = .error .ErrTokenInvalid) ∧
      (sampleRoomProvider.VerifyToken
          (sampleJWT roomClaims (fun c => c.RegisteredClaims)) 1800000000000000000
          (sampleToken expiredRoomClaims "test-secret") = .error .ErrTokenExpired ↔
        ∃ claims, (sampleJWT roomClaims (fun c => c.RegisteredClaims)).SignedString claims
            sampleRoomProvider.secretKey = .ok (sampleToken expiredRoomClaims "test-secret") ∧
          claims.RegisteredClaims.ExpiresAt ≤ 1800000000000000000) ∧
      (∀ claims tok extra,
        (sampleJWT roomClaims (fun c => c.RegisteredClaims)).SignedString claims
          sampleRoomProvider.secretKey = .ok tok → extra ≠ "" →
        sampleRoomProvider.VerifyToken
          (sampleJWT roomClaims (fun c => c.RegisteredClaims)) 1800000000000000000
          (tok ++ extra) = .error .ErrTokenInvalid)) ∧
    (((∃ payload, sampleUserProvider.VerifyToken
          (sampleJWT userClaims (fun c => c.RegisteredClaims)) 1800000000000000000
          (sampleToken expiredUserClaims "test-secret") = .ok payload) ∨
        sampleUserProvider.VerifyToken
          (sampleJWT userClaims (fun c => c.RegisteredClaims)) 1800000000000000000
          (sampleToken expiredUserClaims "test-secret") = .error .ErrTokenExpired ∨
        sampleUserProvider.VerifyToken
          (sampleJWT userClaims (fun c => c.RegisteredClaims)) 1800000000000000000
          (sampleToken expiredUserClaims "test-secret") = .error .ErrTokenInvalid) ∧
      (sampleUserProvider.VerifyToken
          (sampleJWT userClaims (fun c => c.RegisteredClaims)) 1800000000000000000
          (sampleToken expiredUserClaims "test-secret") = .error .ErrTokenExpired ↔
        sampleToken expiredUserClaims "test-secret" = "" ∨
        ∃ claims, (sampleJWT userClaims (fun c => c.RegisteredClaims)).SignedString claims
            sampleUserProvider.secretKey = .ok (sampleToken expiredUserClaims "test-secret") ∧
          claims.RegisteredClaims.ExpiresAt ≤ 1800000000000000000) ∧
      (∀ claims tok extra,
        (sampleJWT userClaims (fun c => c.RegisteredClaims)).SignedString claims
          sampleUserProvider.secretKey = .ok tok → extra ≠ "" →
        sampleUserProvider.VerifyToken
          (sampleJWT userClaims (fun c => c.RegisteredClaims)) 1800000000000000000
          (tok ++ extra) = .error .ErrTokenInvalid)) :=
  VerifyToken_errors _ _ (sampleJWT_lawful roomClaims _) (sampleJWT_lawful userClaims _)
    (sampleJWT_sound roomClaims _) (sampleJWT_sound userClaims _)
    sampleRoomProvider sampleUserProvider 1800000000000000000
    (sampleToken expiredRoomClaims "test-secret") (sampleToken expiredUserClaims "test-secret")

theorem expired_sample_claims :
    expiredRoomClaims.RegisteredClaims.ExpiresAt ≤ 1800000000000000000 ∧
    expiredUserClaims.RegisteredClaims.ExpiresAt ≤ 1800000000000000000 := by
  constructor
  · show (1711492904 * 1000000000 : Int) ≤ 1800000000000000000
    decide
  · show (1711492904 * 1000000000 : Int) ≤ 1800000000000000000
    decide

/-- The three cases of the package tests on the model library, at an instant after the
expiry of the expired token: the expired token is rejected with ErrTokenExpired by both
providers, a token just created with the characters "invalid" appended is rejected with
ErrTokenInvalid by both, and so is the expired token with these characters appended. -/
theorem VerifyToken_test_cases :
    sampleRoomProvider.VerifyToken (sampleJWT roomClaims (fun c => c.RegisteredClaims))
      1800000000000000000 (sampleToken expiredRoomClaims "test-secret") =
        .error .ErrTokenExpired ∧
    sampleUserProvider.VerifyToken (sampleJWT userClaims (fun c => c.RegisteredClaims))
      1800000000000000000 (sampleToken expiredUserClaims "test-secret") =
        .error .ErrTokenExpired ∧
    (∀ tok, sampleRoomProvider.CreateToken (sampleJWT roomClaims (fun c => c.RegisteredClaims))
        1800000000000000000 1 "room1" = .ok tok →
      sampleRoomProvider.VerifyToken (sampleJWT roomClaims (fun c => c.RegisteredClaims))
        1800000000000000000 (tok ++ "invalid") = .error .ErrTokenInvalid) ∧
    (∀ tok, sampleUserProvider.CreateToken (sampleJWT userClaims (fun c => c.RegisteredClaims))
        1800000000000000000 1 "test@example.com" = .ok tok →
      sampleUserProvider.VerifyToken (sampleJWT userClaims (fun c => c.RegisteredClaims))
        1800000000000000000 (tok.Access ++ "invalid") = .error .ErrTokenInvalid) ∧
    sampleRoomProvider.VerifyToken (sampleJWT roomClaims (fun c => c.RegisteredClaims))
      1800000000000000000 (sampleToken expiredRoomClaims "test-secret" ++ "invalid") =
        .error .ErrTokenInvalid := by
  refine ⟨?_, ?_, ?_, ?_, ?_⟩
  · exact (RoomProvider.VerifyToken_room_expired_iff _ (sampleJWT_lawful roomClaims _)
      (sampleJWT_sound roomClaims _) sampleRoomProvider _ _).2
      ⟨expiredRoomClaims, rfl, expired_sample_claims.1⟩
  · exact (UserProvider.VerifyToken_user_expired_iff _ (sampleJWT_lawful userClaims _)
      (sampleJWT_sound userClaims _) sampleUserProvider _ _).2
      (Or.inr ⟨expiredUserClaims, rfl, expired_sample_claims.2⟩)
  · intro tok htok
    exact RoomProvider.VerifyToken_room_appended _ (sampleJWT_sound roomClaims _)
      sampleRoomProvider _ _ tok "invalid" htok (by decide)
  · intro tok htok
    simp only [UserProvider.CreateToken, UserProvider.createToken, sampleJWT,
      Except.ok.injEq] at htok
    rw [← htok]
    exact UserProvider.VerifyToken_user_appended _ (sampleJWT_sound userClaims _)
      sampleUserProvider _ _ _ "invalid" rfl (by decide)
  · exact RoomProvider.VerifyToken_room_appended _ (sampleJWT_sound roomClaims _)
      sampleRoomProvider _ expiredRoomClaims _ "invalid" rfl (by decide)

/-- C20 as stated fails for UserProvider: the empty string is a rejected token string
that is not a correctly signed token (signing never yields it), yet it is rejected with
ErrTokenExpired and not with ErrTokenInvalid. -/
theorem VerifyToken_empty_token_expired :
    sampleUserProvider.VerifyToken (sampleJWT userClaims (fun c => c.RegisteredClaims))
      1000 "" = .error .ErrTokenExpired ∧
    (∀ claims key,
      (sampleJWT userClaims (fun c => c.RegisteredClaims)).SignedString claims key ≠ .ok "") ∧
    Error.ErrTokenExpired ≠ Error.ErrTokenInvalid := by
  refine ⟨rfl, ?_, by decide⟩
  intro claims key h
  exact (sampleJWT_lawful userClaims (fun c => c.RegisteredClaims)).sign_nonempty
    claims key "" h rfl

/-! ## Panics of handleEvent -/

theorem sendUserJoined_ok (r : room) (innerID name avatar : String) :
    ∃ t, sendUserJoined r innerID name avatar = .ok t := by
  by_cases hlen : r.users.length = 0
  · have hnil : r.users = [] := List.length_eq_zero.1 hlen
    refine ⟨[], ?_⟩
    simp [sendUserJoined, hnil, userMap.range, sendUserJoinedLoop]
  · exact ⟨_, sendUserJoinedLoop_eq r innerID name avatar hlen _⟩

theorem handleEvent_error_iff (c : Codec) (r : room) (event : baseMessage) (p : Panic) :
    handleEvent c r event = .error p ↔
      (event.Typ = eventJoin ∧ (∀ u, event.Data ≠ .user u) ∧ p = .typeAssertion) ∨
      (event.Typ = eventLeave ∧ r.users.get event.From = none ∧ p = .nilDereference) := by
  have hjl : ¬ eventJoin = eventLeave := by decide
  by_cases h1 : event.Typ = eventJoin
  · have h2 : ¬ event.Typ = eventLeave := fun h => hjl (h1.symm.trans h)
    by_cases hu : ∃ u, event.Data = .user u
    · obtain ⟨u, hd⟩ := hu
      obtain ⟨t, ht⟩ := sendUserJoined_ok { r with users := r.users.set u.innerID u }
        event.From u.name u.avatar
      rw [handleEvent_of_join c r event u h1 hd, ht]
      constructor
      · intro h
        cases h
      · rintro (⟨_, hnu, _⟩ | ⟨h, _, _⟩)
        · exact absurd hd (hnu u)
        · exact absurd h h2
    · have hnu : ∀ u, event.Data ≠ .user u := fun u hd => hu ⟨u, hd⟩
      rw [handleEvent_of_join_not_user c r event h1 hnu]
      constructor
      · intro h
        cases h
        exact Or.inl ⟨h1, hnu, rfl⟩
      · rintro (⟨_, _, hp⟩ | ⟨h, _, _⟩)
        · rw [hp]
        · exact absurd h h2
  · by_cases h2 : event.Typ = eventLeave
    · cases hget : r.users.get event.From with
      | none =>
        rw [handleEvent_leave_of_get_none c r event h2 hget]
        constructor
        · intro h
          cases h
          exact Or.inr ⟨h2, rfl, rfl⟩
        · rintro (⟨h, _, _⟩ | ⟨_, _, hp⟩)
          · exact absurd h h1
          · rw [hp]
      | some u =>
        rw [handleEvent_leave_of_get c r event u h2 hget]
        constructor
        · intro h
          cases h
        · rintro (⟨h, _, _⟩ | ⟨_, hn, _⟩)
          · exact absurd h h1
          · cases hn
    · have hok : ∃ t, handleEvent c r event = .ok (r, t) := by
        by_cases h3 : event.Typ = eventChatMessage
        · rw [handleEvent_of_chat c r event h3]
          cases unmarshalClientData c.unmarshalChat event.Data with
          | none => exact ⟨_, rfl⟩
          | some msg => exact ⟨_, rfl⟩
        · by_cases h4 : event.Typ = eventOffer ∨ event.Typ = eventAnswer ∨
              event.Typ = eventIceCandidate
          · rw [handleEvent_of_signal c r event h4]
            cases unmarshalClientData c.unmarshalWebRTC event.Data with
            | none => exact ⟨_, rfl⟩
            | some msg => exact ⟨_, rfl⟩
          · exact ⟨_, handleEvent_of_other c r event h1 h2 h3 h4⟩
      obtain ⟨t, ht⟩ := hok
      rw [ht]
      constructor
      · intro h
        cases h
      · rintro (⟨h, _, _⟩ | ⟨h, _, _⟩)
        · exact absurd h h1
        · exact absurd h h2

/-- C21 (the code departs from it): handleEvent does not complete for every event that
can reach the mailbox.  The frame "join" of a client decodes as an envelope of type join
without a session in its data; the listen loop of session c hands it to the room with
from = "c", and handleEvent fails on the type assertion `event.Data.(*user)`.  The frame
"leave" makes the session contribute two leave events, and the second one dereferences
the nil pointer of the membership lookup. -/
theorem handleEvent_client_frames_panic :
    envelopeOf clientCodec "c" "join" = some { Typ := eventJoin, From := "c", Data := .nil } ∧
    handleEvent clientCodec roomAB { Typ := eventJoin, From := "c", Data := .nil } =
      .error .typeAssertion ∧
    join clientCodec carol [.message "join", .err] =
      ([joinEvent carol, { Typ := eventJoin, From := "c", Data := .nil }, leaveEvent "c"],
        true) ∧
    run clientCodec roomAB
        [joinEvent carol, { Typ := eventJoin, From := "c", Data := .nil }, leaveEvent "c"] =
      .error .typeAssertion ∧
    join clientCodec carol [.message "leave", .err] =
      ([joinEvent carol, leaveEvent "c", leaveEvent "c"], true) ∧
    run clientCodec roomAB [joinEvent carol, leaveEvent "c", leaveEvent "c"] =
      .error .nilDereference := by
  decide

/-! ## Reachable room states -/

theorem run_wf (c : Codec) (events : List baseMessage) :
    ∀ (r r1 : room) (t : List Effect), r.wf → run c r events = .ok (r1, t) → r1.wf := by
  induction events with
  | nil =>
    intro r r1 t hr h
    simp only [run, Except.ok.injEq, Prod.mk.injEq] at h
    rw [← h.1]
    exact hr
  | cons event rest ih =>
    intro r r1 t hr h
    cases hstep : handleEvent c r event with
    | error p =>
      simp only [run, hstep] at h
      cases h
    | ok out =>
      obtain ⟨r2, sent⟩ := out
      have hr2 := handleEvent_wf c r r2 event sent hr hstep
      cases hrest : run c r2 rest with
      | error p =>
        simp only [run, hstep, hrest] at h
        cases h
      | ok out1 =>
        obtain ⟨r3, more⟩ := out1
        simp only [run, hstep, hrest, Except.ok.injEq, Prod.mk.injEq] at h
        rw [← h.1]
        exact ih r2 r3 more hr2 hrest

/-- C22: in every room state reached from the empty room by handleEvent over a sequence
of events (whatever the events, so in particular those room.join and room.listen put in
the mailbox), each key of the membership map is the innerID of the session stored under
it, the map has one entry per key, and no two entries hold the same session id. -/
theorem reachable_membership_keyed (c : Codec) (events : List baseMessage) (r : room)
    (t : List Effect) (h : run c newRoom events = .ok (r, t)) :
    r.users.keyedByInnerID ∧ r.users.uniqueKeys ∧
      (r.users.range.map user.innerID).Nodup := by
  have hwf := run_wf c events newRoom r t newRoom_wf h
  exact ⟨hwf.2, hwf.1, hwf.nodup_innerIDs⟩

theorem reachable_membership_keyed_witness :
    roomAB.users.keyedByInnerID ∧ roomAB.users.uniqueKeys ∧
      (roomAB.users.range.map user.innerID).Nodup :=
  reachable_membership_keyed sampleCodec [joinEvent alice, joinEvent bob] roomAB
    [.send alice { Typ := eventInfo, From := "a", Data := .info { Users := [] } },
     .send alice { Typ := eventJoin, From := "b",
                   Data := .join { Name := "Bob", Avatar := "b.png" } },
     .send bob { Typ := eventInfo, From := "b",
                 Data := .info { Users := [infoUserOf alice] } }]
    (by decide)

/-! ## Frame of the client events -/

/-- C23: only join and leave events change membership.  A chat-message, offer, answer or
ice-candidate event, whatever its data, makes handleEvent return normally with the room
as it was and without closing a transport; and whenever handleEvent returns a different
room or closes a transport, the event is of type join or leave. -/
theorem handleEvent_frame (c : Codec) (r : room) (event : baseMessage) :
    ((event.Typ = eventChatMessage ∨ event.Typ = eventOffer ∨ event.Typ = eventAnswer ∨
        event.Typ = eventIceCandidate) →
      ∃ t, handleEvent c r event = .ok (r, t) ∧ closes t = []) ∧
    (∀ r1 t, handleEvent c r event = .ok (r1, t) → (r1 ≠ r ∨ closes t ≠ []) →
      event.Typ = eventJoin ∨ event.Typ = eventLeave) := by
  have hclient : ¬ event.Typ = eventJoin → ¬ event.Typ = eventLeave →
      ∃ t, handleEvent c r event = .ok (r, t) ∧ closes t = [] := by
    intro h1 h2
    by_cases h3 : event.Typ = eventChatMessage
    · rw [handleEvent_of_chat c r event h3]
      cases unmarshalClientData c.unmarshalChat event.Data with
      | none => exact ⟨[], rfl, rfl⟩
      | some msg => exact ⟨_, rfl, closes_map_send _ _⟩
    · by_cases h4 : event.Typ = eventOffer ∨ event.Typ = eventAnswer ∨
          event.Typ = eventIceCandidate
      · rw [handleEvent_of_signal c r event h4]
        cases unmarshalClientData c.unmarshalWebRTC event.Data with
        | none => exact ⟨[], rfl, rfl⟩
        | some msg =>
          refine ⟨_, rfl, ?_⟩
          simp only [forwardMessage]
          cases r.users.get msg.To <;> rfl
      · exact ⟨[], handleEvent_of_other c r event h1 h2 h3 h4, rfl⟩
  constructor
  · intro hT
    apply hclient
    · rcases hT with h | h | h | h <;> rw [h] <;> decide
    · rcases hT with h | h | h | h <;> rw [h] <;> decide
  · intro r1 t hrun hchange
    by_cases h1 : event.Typ = eventJoin
    · exact Or.inl h1
    · by_cases h2 : event.Typ = eventLeave
      · exact Or.inr h2
      · obtain ⟨t0, ht0, hcl⟩ := hclient h1 h2
        rw [ht0] at hrun
        simp only [Except.ok.injEq, Prod.mk.injEq] at hrun
        rcases hchange with h | h
        · exact absurd hrun.1.symm h
        · rw [← hrun.2] at h
          exact absurd hcl h

/-! ## The capacity of createInfoUsers -/

theorem length_filter_ne_of_nodup (us : List user) (u : user) (hu : u ∈ us)
    (hn : (us.map user.innerID).Nodup) :
    (us.filter (fun v => decide (v.innerID ≠ u.innerID))).length + 1 = us.length := by
  induction us with
  | nil => simp at hu
  | cons v rest ih =>
    simp only [List.map_cons, List.nodup_cons] at hn
    rcases List.mem_cons.1 hu with heq | hmem
    · subst heq
      have hall : rest.filter (fun v => decide (v.innerID ≠ u.innerID)) = rest := by
        apply List.filter_eq_self.2
        intro w hw
        have hne : w.innerID ≠ u.innerID := by
          intro h
          apply hn.1
          rw [← h]
          exact List.mem_map.2 ⟨w, hw, rfl⟩
        simpa using hne
      have hhead : decide (u.innerID ≠ u.innerID) = false := by simp
      rw [List.filter_cons, hhead]
      simp only [Bool.false_eq_true, if_false]
      rw [hall, List.length_cons]
    · have hv : v.innerID ≠ u.innerID := by
        intro h
        apply hn.1
        rw [h]
        exact List.mem_map.2 ⟨u, hmem, rfl⟩
      have := ih hmem hn.2
      simp only [List.filter_cons, hv, ne_eq, not_false_eq_true, decide_True, if_true,
        List.length_cons]
      simpa using this

/-- C24: whenever sendUserJoined calls createInfoUsers, that is for a member `u` of the
membership map visited by its loop whose innerID is the excluded id, the map is not
empty, so the capacity len(users)-1 is not negative and the call returns; in a room state
the returned list has exactly len(users)-1 entries, one for each member other than the
excluded id.  Accordingly sendUserJoined always returns and handleEvent never fails on
the allocation. -/
theorem createInfoUsers_capacity (r : room) (exclude : String) (u : user) (hr : r.wf)
    (hu : u ∈ r.users.range) (hid : u.innerID = exclude) :
    (0 < r.users.length ∧
      ∃ L, createInfoUsers r.users exclude = .ok L ∧ L.length = r.users.length - 1 ∧
        L = (r.users.range.filter (fun v => decide (v.innerID ≠ exclude))).map infoUserOf ∧
        ∀ i ∈ L, i.InnerID ≠ exclude) ∧
    (∀ (r0 : room) (innerID name avatar : String),
      ∃ t, sendUserJoined r0 innerID name avatar = .ok t) ∧
    (∀ (c : Codec) (r0 : room) (event : baseMessage) (p : Panic),
      handleEvent c r0 event = .error p → p ≠ .makeSliceCap) := by
  have hpos : 0 < r.users.length := by
    have : 0 < r.users.range.length := List.length_pos_of_mem hu
    simpa [userMap.range] using this
  refine ⟨⟨hpos, _, ?_, ?_, rfl, ?_⟩, sendUserJoined_ok, ?_⟩
  · simp only [createInfoUsers, Nat.pos_iff_ne_zero.1 hpos, if_false]
    rfl
  · have hlen := length_filter_ne_of_nodup r.users.range u hu hr.nodup_innerIDs
    rw [hid] at hlen
    have hrange : r.users.range.length = r.users.length := by simp [userMap.range]
    rw [List.length_map]
    omega
  · intro i hi
    obtain ⟨v, hv, hEq⟩ := List.mem_map.1 hi
    have := (List.mem_filter.1 hv).2
    rw [← hEq]
    simpa [infoUserOf] using this
  · intro c r0 event p herr
    rcases (handleEvent_error_iff c r0 event p).1 herr with ⟨_, _, hp⟩ | ⟨_, _, hp⟩ <;>
      rw [hp] <;> decide

theorem createInfoUsers_capacity_witness :
    (0 < roomAB.users.length ∧
      ∃ L, createInfoUsers roomAB.users "b" = .ok L ∧ L.length = roomAB.users.length - 1 ∧
        L = (roomAB.users.range.filter (fun v => decide (v.innerID ≠ "b"))).map infoUserOf ∧
        ∀ i ∈ L, i.InnerID ≠ "b") ∧
    (∀ (r0 : room) (innerID name avatar : String),
      ∃ t, sendUserJoined r0 innerID name avatar = .ok t) ∧
    (∀ (c : Codec) (r0 : room) (event : baseMessage) (p : Panic),
      handleEvent c r0 event = .error p → p ≠ .makeSliceCap) :=
  createInfoUsers_capacity roomAB "b" bob roomAB_wf (by decide) rfl

end Vego
